import Mathlib

/-!
Shallow embedding of the render orchestration core of the Natron repository
(src/Engine/EffectInstance.cpp and the OutputSchedulerThread interface of
src/unnamed/part_000), together with theorems settling the claims of the
specification.

Modelling conventions:
  * C++ `double` quantities (times, canonical coordinates, pixel aspect
    ratios) are embedded as `Rat`: the code only compares, min/maxes and
    scales them by powers of two, which `Rat` performs exactly.
  * pixel coordinates (`RectI`) are embedded as `Int`.
  * fallible calls return `Option`; out-parameters become return values.
  * classes such as `RectD`/`RectI` whose implementation files are not part
    of the given sources are reconstructed from their use sites and the
    specification (their use here is only `isNull`, `intersect`, `merge`,
    `contains` and the canonical/pixel conversions).
-/

namespace Natron

/-- Pixel-coordinate rectangle (`RectI` in the source): integer coordinates,
`x1 <= x2` and `y1 <= y2` for non-degenerate rectangles. -/
structure RectI where
  x1 : Int
  y1 : Int
  x2 : Int
  y2 : Int
deriving DecidableEq, Repr

/-- Canonical-coordinate rectangle (`RectD` in the source). -/
structure RectD where
  x1 : Rat
  y1 : Rat
  x2 : Rat
  y2 : Rat
deriving DecidableEq, Repr

/-- `RectI::isNull`: a rectangle is null when it has no area. -/
def RectI.isNull (r : RectI) : Bool :=
  r.x2 ≤ r.x1 || r.y2 ≤ r.y1

/-- `RectD::isNull`. -/
def RectD.isNull (r : RectD) : Bool :=
  r.x2 ≤ r.x1 || r.y2 ≤ r.y1

/-- `RectI::intersect(r, out)`: returns `none` when either rectangle is null
or they do not overlap; the C++ leaves the out-parameter untouched in that
case, which callers model with `Option.getD`. -/
def RectI.intersect (a b : RectI) : Option RectI :=
  if a.isNull || b.isNull then none
  else if a.x1 > b.x2 || b.x1 > a.x2 || a.y1 > b.y2 || b.y1 > a.y2 then none
  else some ⟨max a.x1 b.x1, max a.y1 b.y1, min a.x2 b.x2, min a.y2 b.y2⟩

/-- `RectD::intersect`. -/
def RectD.intersect (a b : RectD) : Option RectD :=
  if a.isNull || b.isNull then none
  else if a.x1 > b.x2 || b.x1 > a.x2 || a.y1 > b.y2 || b.y1 > a.y2 then none
  else some ⟨max a.x1 b.x1, max a.y1 b.y1, min a.x2 b.x2, min a.y2 b.y2⟩

/-- `RectD::merge`: smallest rectangle containing both. -/
def RectD.merge (a b : RectD) : RectD :=
  ⟨min a.x1 b.x1, min a.y1 b.y1, max a.x2 b.x2, max a.y2 b.y2⟩

/-- `RectI::contains`. -/
def RectI.contains (a b : RectI) : Bool :=
  b.x1 ≥ a.x1 && b.y1 ≥ a.y1 && b.x2 ≤ a.x2 && b.y2 ≤ a.y2

/-- The null `RectD` used for a defaulted `preComputedRoD` argument. -/
def RectD.zero : RectD := ⟨0, 0, 0, 0⟩

/-- Pixel scale of a mipmap level: `2^-level`; we keep it as an exact `Rat`.
(`Image::getScaleFromMipMapLevel`.) -/
def scaleFromMipMapLevel (level : Nat) : Rat :=
  1 / ((2 : Rat) ^ level)

/-- `RectI::toCanonical_noClipping(level, par)`: canonical = pixel * par * 2^level
in x, pixel * 2^level in y. -/
def RectI.toCanonicalNoClipping (r : RectI) (level : Nat) (par : Rat) : RectD :=
  ⟨(r.x1 : Rat) * par * (2 : Rat) ^ level,
   (r.y1 : Rat) * (2 : Rat) ^ level,
   (r.x2 : Rat) * par * (2 : Rat) ^ level,
   (r.y2 : Rat) * (2 : Rat) ^ level⟩

/-- `RectI::toCanonical(level, par, rod)`: converts without clipping, then
intersects with the rod; on a failed intersection the out-parameter keeps the
unclipped value (the C++ `intersect` does not write on failure). -/
def RectI.toCanonical (r : RectI) (level : Nat) (par : Rat) (rod : RectD) : RectD :=
  let noClip := r.toCanonicalNoClipping level par
  (noClip.intersect rod).getD noClip

/-- `RectD::toPixelEnclosing(level, par)`: floor the lower corner and ceil the
upper corner of the scaled rectangle (pixel-enclosing rounds outward). -/
def RectD.toPixelEnclosing (r : RectD) (level : Nat) (par : Rat) : RectI :=
  ⟨⌊r.x1 / par * scaleFromMipMapLevel level⌋,
   ⌊r.y1 * scaleFromMipMapLevel level⌋,
   ⌈r.x2 / par * scaleFromMipMapLevel level⌉,
   ⌈r.y2 * scaleFromMipMapLevel level⌉⟩

/-- Image bit depths (`Natron::ImageBitDepthEnum`). -/
inductive BitDepth where
  | byte
  | short
  | float
deriving DecidableEq, Repr

/-- `getSizeOfForBitDepth`: byte size of one component sample. -/
def getSizeOfForBitDepth : BitDepth → Nat
  | .byte => 1
  | .short => 2
  | .float => 4

/-- Plane identifier with its component set (`Natron::ImageComponents`): the
color plane (id 0 by convention here) or a named auxiliary plane.  `numComps`
is the number of channels. -/
structure ImageComponents where
  planeId : Nat
  isColor : Bool
  numComps : Nat
deriving DecidableEq, Repr

/-- `ImageComponents::isColorPlane`. -/
def ImageComponents.isColorPlane (c : ImageComponents) : Bool := c.isColor

/-- Modelled from the spec: `ImageComponents::isConvertibleTo`
(ImageComponents.cpp is not among the given sources).  The spec states that
the color plane alone allows component conversion on a cache hit; all other
planes require an exact match. -/
def ImageComponents.isConvertibleTo (c other : ImageComponents) : Bool :=
  c == other || (c.isColorPlane && other.isColorPlane)

end Natron

/-! ## ActionsCache (claim C3)

Embedding of the `ActionsCache` class of EffectInstance.cpp (lines 109-249):
per-node memoization of the region-of-definition, identity and time-domain
actions, tagged by the node hash at which they were computed.  The mutex is
irrelevant to the sequential semantics and is dropped; the three tables are
association lists keyed exactly as in the source. -/

namespace Natron

/-- `ActionKey`: (time, view, mipMapLevel). -/
structure ActionKey where
  time : Rat
  view : Int
  mipMapLevel : Nat
deriving DecidableEq, Repr

/-- `IdentityResults`. -/
structure IdentityResults where
  inputIdentityNb : Int
  inputIdentityTime : Rat
deriving DecidableEq, Repr

/-- The `ActionsCache` state: current hash tag, time-domain slot, identity
table and RoD table. -/
structure ActionsCache where
  cacheHash : Nat
  timeDomainMin : Rat
  timeDomainMax : Rat
  timeDomainSet : Bool
  identityCache : List (ActionKey × IdentityResults)
  rodCache : List (ActionKey × RectD)
deriving DecidableEq, Repr

/-- Fresh `ActionsCache` (constructor, lines 123-132). -/
def ActionsCache.init : ActionsCache :=
  ⟨0, 0, 0, false, [], []⟩

/-- `ActionsCache::invalidateAll(newHash)` (lines 142-148): clear all three
tables and adopt the new hash as the current tag. -/
def ActionsCache.invalidateAll (c : ActionsCache) (newHash : Nat) : ActionsCache :=
  { c with cacheHash := newHash, rodCache := [], identityCache := [], timeDomainSet := false }

/-- Association-list lookup used for both cache maps. -/
def assocFind {α : Type} (l : List (ActionKey × α)) (k : ActionKey) : Option α :=
  match l with
  | [] => none
  | (k2, v) :: rest => if k2 = k then some v else assocFind rest k

/-- `ActionsCache::getIdentityResult` (lines 151-168): a lookup whose hash tag
differs from the cache's current tag misses. -/
def ActionsCache.getIdentityResult (c : ActionsCache) (hash : Nat) (time : Rat)
    (view : Int) (mip : Nat) : Option IdentityResults :=
  if hash ≠ c.cacheHash then none
  else assocFind c.identityCache ⟨time, view, mip⟩

/-- `ActionsCache::setIdentityResult` (lines 170-191): overwrites are
permitted for the identity table. -/
def ActionsCache.setIdentityResult (c : ActionsCache) (time : Rat) (view : Int)
    (mip : Nat) (inputNb : Int) (identTime : Rat) : ActionsCache :=
  let key : ActionKey := ⟨time, view, mip⟩
  match assocFind c.identityCache key with
  | some _ =>
      { c with identityCache :=
          c.identityCache.map (fun p => if p.1 = key then (key, ⟨inputNb, identTime⟩) else p) }
  | none =>
      { c with identityCache := (key, ⟨inputNb, identTime⟩) :: c.identityCache }

/-- `ActionsCache::getRoDResult` (lines 193-209). -/
def ActionsCache.getRoDResult (c : ActionsCache) (hash : Nat) (time : Rat)
    (view : Int) (mip : Nat) : Option RectD :=
  if hash ≠ c.cacheHash then none
  else assocFind c.rodCache ⟨time, view, mip⟩

/-- `ActionsCache::setRoDResult` (lines 211-229): if an entry for the key is
already present the call is a diagnosed bug and is ignored (first write
wins). -/
def ActionsCache.setRoDResult (c : ActionsCache) (time : Rat) (view : Int)
    (mip : Nat) (rod : RectD) : ActionsCache :=
  let key : ActionKey := ⟨time, view, mip⟩
  match assocFind c.rodCache key with
  | some _ => c
  | none => { c with rodCache := (key, rod) :: c.rodCache }

/-- `ActionsCache::getTimeDomainResult` (lines 231-239). -/
def ActionsCache.getTimeDomainResult (c : ActionsCache) (hash : Nat) : Option (Rat × Rat) :=
  if hash ≠ c.cacheHash || !c.timeDomainSet then none
  else some (c.timeDomainMin, c.timeDomainMax)

/-- `ActionsCache::setTimeDomainResult` (lines 241-247). -/
def ActionsCache.setTimeDomainResult (c : ActionsCache) (first last : Rat) : ActionsCache :=
  { c with timeDomainSet := true, timeDomainMin := first, timeDomainMax := last }

theorem assocFind_setRoD_preserved (c : ActionsCache) (t : Rat) (v : Int) (m : Nat)
    (r : RectD) (k : ActionKey) (val : RectD)
    (h : assocFind c.rodCache k = some val) :
    assocFind (c.setRoDResult t v m r).rodCache k = some val := by
  unfold ActionsCache.setRoDResult
  cases hfind : assocFind c.rodCache ⟨t, v, m⟩ with
  | some w => simpa [hfind] using h
  | none =>
      simp only [hfind]
      show assocFind ((⟨⟨t, v, m⟩, r⟩ : ActionKey × RectD) :: c.rodCache) k = some val
      unfold assocFind
      by_cases hk : (⟨t, v, m⟩ : ActionKey) = k
      · rw [← hk] at h; rw [h] at hfind; exact absurd hfind (by simp)
      · simpa [hk] using h

/-- Claim C3: for every `ActionsCache` instance, (1) any `getRoDResult`,
`getIdentityResult` or `getTimeDomainResult` lookup whose hash tag differs
from the cache's current tag misses; (2) `invalidateAll(newHash)` empties all
three tables and adopts `newHash` as the current tag; (3) `setRoDResult` is
first-write-wins — a second `setRoDResult` for a key that already has an
entry leaves the cache unchanged — and consequently a `getRoDResult` hit for
a key keeps returning the same rectangle across any later `setRoDResult`. -/
theorem actionsCache_tag_invalidate_firstWriteWins (c : ActionsCache) (hash newHash : Nat)
    (t : Rat) (v : Int) (m : Nat) :
    (hash ≠ c.cacheHash →
      c.getRoDResult hash t v m = none ∧
      c.getIdentityResult hash t v m = none ∧
      c.getTimeDomainResult hash = none) ∧
    ((c.invalidateAll newHash).cacheHash = newHash ∧
      (c.invalidateAll newHash).rodCache = [] ∧
      (c.invalidateAll newHash).identityCache = [] ∧
      (c.invalidateAll newHash).timeDomainSet = false) ∧
    (∀ r2 val, assocFind c.rodCache ⟨t, v, m⟩ = some val →
      c.setRoDResult t v m r2 = c) ∧
    (∀ t2 v2 m2 r2 val, c.getRoDResult hash t v m = some val →
      (c.setRoDResult t2 v2 m2 r2).getRoDResult hash t v m = some val) := by
  refine ⟨?_, ?_, ?_, ?_⟩
  · intro hne
    exact ⟨by simp [ActionsCache.getRoDResult, hne],
           by simp [ActionsCache.getIdentityResult, hne],
           by simp [ActionsCache.getTimeDomainResult, hne]⟩
  · exact ⟨rfl, rfl, rfl, rfl⟩
  · intro r2 val hfind
    unfold ActionsCache.setRoDResult
    simp [hfind]
  · intro t2 v2 m2 r2 val hget
    unfold ActionsCache.getRoDResult at hget ⊢
    by_cases hne : hash ≠ c.cacheHash
    · simp [hne] at hget
    · have hhash : (c.setRoDResult t2 v2 m2 r2).cacheHash = c.cacheHash := by
        unfold ActionsCache.setRoDResult
        cases hx : assocFind c.rodCache ⟨t2, v2, m2⟩ <;> simp [hx]
      rw [hhash]
      rw [if_neg hne] at hget ⊢
      exact assocFind_setRoD_preserved c t2 v2 m2 r2 _ val hget

/-- Witness for claim C3's theorem at a concrete cache: tag 5, one stored
RoD entry; lookups with tag 7 miss, a second `setRoDResult` for the stored
key is ignored, and the stored rectangle survives another `setRoDResult`. -/
theorem actionsCache_tag_invalidate_firstWriteWins_witness :
    (ActionsCache.getRoDResult ⟨5, 0, 0, false, [], [(⟨1, 0, 0⟩, ⟨0, 0, 4, 4⟩)]⟩ 7 1 0 0 = none) ∧
    (ActionsCache.setRoDResult ⟨5, 0, 0, false, [], [(⟨1, 0, 0⟩, ⟨0, 0, 4, 4⟩)]⟩ 1 0 0 ⟨1, 1, 2, 2⟩
      = ⟨5, 0, 0, false, [], [(⟨1, 0, 0⟩, ⟨0, 0, 4, 4⟩)]⟩) ∧
    ((ActionsCache.setRoDResult ⟨5, 0, 0, false, [], [(⟨1, 0, 0⟩, ⟨0, 0, 4, 4⟩)]⟩ 2 0 0
        ⟨1, 1, 2, 2⟩).getRoDResult 5 1 0 0 = some ⟨0, 0, 4, 4⟩) := by
  have h := actionsCache_tag_invalidate_firstWriteWins
      ⟨5, 0, 0, false, [], [(⟨1, 0, 0⟩, ⟨0, 0, 4, 4⟩)]⟩ 5 9 1 0 0
  have h7 := actionsCache_tag_invalidate_firstWriteWins
      ⟨5, 0, 0, false, [], [(⟨1, 0, 0⟩, ⟨0, 0, 4, 4⟩)]⟩ 7 9 1 0 0
  refine ⟨(h7.1 (by decide)).1, ?_, ?_⟩
  · exact h.2.2.1 ⟨1, 1, 2, 2⟩ ⟨0, 0, 4, 4⟩ (by decide)
  · exact h.2.2.2 2 0 0 ⟨1, 1, 2, 2⟩ ⟨0, 0, 4, 4⟩ (by decide)

end Natron

/-! ## Cache lookup (claim C2)

Embedding of the selection loop of
`EffectInstance::getImageFromCacheAndConvertIfNeeded` (EffectInstance.cpp
lines 1607-1666).  The loop walks the list of cache entries found for the
key, evicts stale or unusable entries, returns the first exact match
(same mipmap level, convertible components, bit depth at least as deep), and
otherwise remembers the best higher-resolution (lower mipmap level)
candidate as a downscale source. -/

namespace Natron

/-- The metadata of a cached image consulted by the selection loop. -/
structure CachedImageMeta where
  mipMapLevel : Nat
  comps : ImageComponents
  depth : BitDepth
  isRodProjectFormat : Bool
  rod : RectD
deriving DecidableEq, Repr

/-- The parameters of the lookup that the loop reads. -/
structure CacheLookupParams where
  projectCanonical : RectD
  mipMapLevel : Nat
  bitdepth : BitDepth
  components : ImageComponents
  nodePrefComps : ImageComponents
  nodePrefDepth : BitDepth

/-- The `for` loop of lines 1612-1666: first component of the result is
`*image` (an exact match, which breaks the loop), second is `imageToConvert`
(the retained downscale source).  Entries evicted by the project-format or
node-preference filters are skipped, as are entries at a higher-or-equal
mipmap level, with non-convertible components, or with a smaller bit
depth. -/
def selectFromCacheLoop (p : CacheLookupParams) (toConvert : Option CachedImageMeta) :
    List CachedImageMeta → Option CachedImageMeta × Option CachedImageMeta
  | [] => (none, toConvert)
  | img :: rest =>
    if img.isRodProjectFormat = true ∧ p.projectCanonical ≠ img.rod then
      selectFromCacheLoop p toConvert rest
    else if (img.comps.isColorPlane = true ∧ p.nodePrefComps.isColorPlane = true ∧
              img.comps ≠ p.nodePrefComps) ∨ img.depth ≠ p.nodePrefDepth then
      selectFromCacheLoop p toConvert rest
    else if img.mipMapLevel = p.mipMapLevel ∧ img.comps.isConvertibleTo p.components = true ∧
              getSizeOfForBitDepth img.depth ≥ getSizeOfForBitDepth p.bitdepth then
      (some img, toConvert)
    else if img.mipMapLevel ≥ p.mipMapLevel ∨ img.comps.isConvertibleTo p.components ≠ true ∨
              getSizeOfForBitDepth img.depth < getSizeOfForBitDepth p.bitdepth then
      selectFromCacheLoop p toConvert rest
    else
      match toConvert with
      | none => selectFromCacheLoop p (some img) rest
      | some cur =>
        if img.mipMapLevel > cur.mipMapLevel then selectFromCacheLoop p (some img) rest
        else selectFromCacheLoop p (some cur) rest

/-- Lines 1668-1745: the image handed back by the lookup is the exact match
when one was found, else the retained downscale source (which is then
downscaled to the requested level, keeping its components and depth). -/
def getImageFromCacheResult (p : CacheLookupParams)
    (cachedImages : List CachedImageMeta) : Option CachedImageMeta :=
  match (selectFromCacheLoop p none cachedImages).1 with
  | some m => some m
  | none => (selectFromCacheLoop p none cachedImages).2

/-- A usable selection: bit depth at least as deep as requested, components
convertible to the requested ones, resolution at least as high as requested
(mipmap level at most the requested level). -/
def cacheHitUsable (p : CacheLookupParams) (m : CachedImageMeta) : Prop :=
  getSizeOfForBitDepth m.depth ≥ getSizeOfForBitDepth p.bitdepth ∧
  m.comps.isConvertibleTo p.components = true ∧
  m.mipMapLevel ≤ p.mipMapLevel

/-- A usable strict downscale source: usable and at a strictly lower mipmap
level than requested. -/
def cacheDownscaleSource (p : CacheLookupParams) (m : CachedImageMeta) : Prop :=
  cacheHitUsable p m ∧ m.mipMapLevel < p.mipMapLevel

theorem selectFromCacheLoop_safe (p : CacheLookupParams) :
    ∀ (l : List CachedImageMeta) (tc : Option CachedImageMeta),
      (∀ m, tc = some m → cacheDownscaleSource p m) →
      (∀ e, (selectFromCacheLoop p tc l).1 = some e →
          e ∈ l ∧ e.mipMapLevel = p.mipMapLevel ∧ cacheHitUsable p e) ∧
      (∀ m, (selectFromCacheLoop p tc l).1 = none →
          (selectFromCacheLoop p tc l).2 = some m →
          (m ∈ l ∧ cacheDownscaleSource p m) ∨ tc = some m) := by
  intro l
  induction l with
  | nil =>
      intro tc htc
      refine ⟨?_, ?_⟩
      · intro e he
        simp [selectFromCacheLoop] at he
      · intro m _ hc
        simp [selectFromCacheLoop] at hc
        exact Or.inr hc
  | cons img rest ih =>
      intro tc htc
      by_cases h1 : img.isRodProjectFormat = true ∧ p.projectCanonical ≠ img.rod
      · have heq : selectFromCacheLoop p tc (img :: rest) = selectFromCacheLoop p tc rest := by
          simp [selectFromCacheLoop, h1]
        rw [heq]
        refine ⟨fun e he => ?_, fun m hn hc => ?_⟩
        · obtain ⟨hm, hrest⟩ := ((ih tc htc).1 e he)
          exact ⟨List.mem_cons_of_mem _ hm, hrest⟩
        · rcases (ih tc htc).2 m hn hc with ⟨hm, hd⟩ | h
          · exact Or.inl ⟨List.mem_cons_of_mem _ hm, hd⟩
          · exact Or.inr h
      · by_cases h2 : (img.comps.isColorPlane = true ∧ p.nodePrefComps.isColorPlane = true ∧
            img.comps ≠ p.nodePrefComps) ∨ img.depth ≠ p.nodePrefDepth
        · have heq : selectFromCacheLoop p tc (img :: rest) = selectFromCacheLoop p tc rest := by
            simp only [selectFromCacheLoop]
            rw [if_neg h1, if_pos h2]
          rw [heq]
          refine ⟨fun e he => ?_, fun m hn hc => ?_⟩
          · obtain ⟨hm, hrest⟩ := ((ih tc htc).1 e he)
            exact ⟨List.mem_cons_of_mem _ hm, hrest⟩
          · rcases (ih tc htc).2 m hn hc with ⟨hm, hd⟩ | h
            · exact Or.inl ⟨List.mem_cons_of_mem _ hm, hd⟩
            · exact Or.inr h
        · by_cases h3 : img.mipMapLevel = p.mipMapLevel ∧
              img.comps.isConvertibleTo p.components = true ∧
              getSizeOfForBitDepth img.depth ≥ getSizeOfForBitDepth p.bitdepth
          · have heq : selectFromCacheLoop p tc (img :: rest) = (some img, tc) := by
              simp only [selectFromCacheLoop]
              rw [if_neg h1, if_neg h2, if_pos h3]
            rw [heq]
            refine ⟨fun e he => ?_, fun m hn _ => ?_⟩
            · obtain rfl : img = e := by injection he
              exact ⟨List.mem_cons_self _ _, h3.1, h3.2.2, h3.2.1, le_of_eq h3.1⟩
            · simp at hn
          · by_cases h4 : img.mipMapLevel ≥ p.mipMapLevel ∨
                img.comps.isConvertibleTo p.components ≠ true ∨
                getSizeOfForBitDepth img.depth < getSizeOfForBitDepth p.bitdepth
            · have heq : selectFromCacheLoop p tc (img :: rest) = selectFromCacheLoop p tc rest := by
                simp only [selectFromCacheLoop]
                rw [if_neg h1, if_neg h2, if_neg h3, if_pos h4]
              rw [heq]
              refine ⟨fun e he => ?_, fun m hn hc => ?_⟩
              · obtain ⟨hm, hrest⟩ := ((ih tc htc).1 e he)
                exact ⟨List.mem_cons_of_mem _ hm, hrest⟩
              · rcases (ih tc htc).2 m hn hc with ⟨hm, hd⟩ | h
                · exact Or.inl ⟨List.mem_cons_of_mem _ hm, hd⟩
                · exact Or.inr h
            · have h4p := h4
              push_neg at h4p
              have himgDown : cacheDownscaleSource p img :=
                ⟨⟨h4p.2.2, h4p.2.1, le_of_lt h4p.1⟩, h4p.1⟩
              have step : ∃ tc2, selectFromCacheLoop p tc (img :: rest) =
                  selectFromCacheLoop p tc2 rest ∧
                  (∀ m2, tc2 = some m2 → m2 = img ∨ tc = some m2) := by
                cases htcv : tc with
                | none =>
                    refine ⟨some img, ?_, ?_⟩
                    · simp only [selectFromCacheLoop]
                      rw [if_neg h1, if_neg h2, if_neg h3, if_neg h4]
                    · intro m2 hm2
                      injection hm2 with hm2
                      exact Or.inl hm2.symm
                | some cur =>
                    by_cases h5 : img.mipMapLevel > cur.mipMapLevel
                    · refine ⟨some img, ?_, ?_⟩
                      · simp only [selectFromCacheLoop]
                        rw [if_neg h1, if_neg h2, if_neg h3, if_neg h4]
                        simp [h5]
                      · intro m2 hm2
                        injection hm2 with hm2
                        exact Or.inl hm2.symm
                    · refine ⟨some cur, ?_, ?_⟩
                      · simp only [selectFromCacheLoop]
                        rw [if_neg h1, if_neg h2, if_neg h3, if_neg h4]
                        simp [h5]
                      · intro m2 hm2
                        injection hm2 with hm2
                        exact Or.inr (by rw [hm2])
              obtain ⟨tc2, heq, htc2src⟩ := step
              have htc2 : ∀ m2, tc2 = some m2 → cacheDownscaleSource p m2 := by
                intro m2 hm2
                rcases htc2src m2 hm2 with h | h
                · rw [h]; exact himgDown
                · exact htc m2 h
              rw [heq]
              refine ⟨fun e he => ?_, fun m hn hc => ?_⟩
              · obtain ⟨hm, hrest⟩ := ((ih tc2 htc2).1 e he)
                exact ⟨List.mem_cons_of_mem _ hm, hrest⟩
              · rcases (ih tc2 htc2).2 m hn hc with ⟨hm, hd⟩ | h
                · exact Or.inl ⟨List.mem_cons_of_mem _ hm, hd⟩
                · rcases htc2src m h with h | h
                  · exact Or.inl ⟨by rw [h]; exact List.mem_cons_self _ _, by rw [h]; exact himgDown⟩
                  · exact Or.inr h

theorem selectFromCacheLoop_some_snd (p : CacheLookupParams) :
    ∀ (l : List CachedImageMeta) (t : CachedImageMeta),
      (selectFromCacheLoop p (some t) l).1 = none →
      ∃ u, (selectFromCacheLoop p (some t) l).2 = some u := by
  intro l
  induction l with
  | nil =>
      intro t _
      exact ⟨t, rfl⟩
  | cons img rest ih =>
      intro t hfst
      by_cases h1 : img.isRodProjectFormat = true ∧ p.projectCanonical ≠ img.rod
      · have heq : selectFromCacheLoop p (some t) (img :: rest) =
            selectFromCacheLoop p (some t) rest := by
          simp [selectFromCacheLoop, h1]
        rw [heq] at hfst ⊢
        exact ih t hfst
      · by_cases h2 : (img.comps.isColorPlane = true ∧ p.nodePrefComps.isColorPlane = true ∧
            img.comps ≠ p.nodePrefComps) ∨ img.depth ≠ p.nodePrefDepth
        · have heq : selectFromCacheLoop p (some t) (img :: rest) =
              selectFromCacheLoop p (some t) rest := by
            simp only [selectFromCacheLoop]
            rw [if_neg h1, if_pos h2]
          rw [heq] at hfst ⊢
          exact ih t hfst
        · by_cases h3 : img.mipMapLevel = p.mipMapLevel ∧
              img.comps.isConvertibleTo p.components = true ∧
              getSizeOfForBitDepth img.depth ≥ getSizeOfForBitDepth p.bitdepth
          · have heq : selectFromCacheLoop p (some t) (img :: rest) = (some img, some t) := by
              simp only [selectFromCacheLoop]
              rw [if_neg h1, if_neg h2, if_pos h3]
            rw [heq] at hfst
            simp at hfst
          · by_cases h4 : img.mipMapLevel ≥ p.mipMapLevel ∨
                img.comps.isConvertibleTo p.components ≠ true ∨
                getSizeOfForBitDepth img.depth < getSizeOfForBitDepth p.bitdepth
            · have heq : selectFromCacheLoop p (some t) (img :: rest) =
                  selectFromCacheLoop p (some t) rest := by
                simp only [selectFromCacheLoop]
                rw [if_neg h1, if_neg h2, if_neg h3, if_pos h4]
              rw [heq] at hfst ⊢
              exact ih t hfst
            · by_cases h5 : img.mipMapLevel > t.mipMapLevel
              · have heq : selectFromCacheLoop p (some t) (img :: rest) =
                    selectFromCacheLoop p (some img) rest := by
                  simp only [selectFromCacheLoop]
                  rw [if_neg h1, if_neg h2, if_neg h3, if_neg h4]
                  simp [h5]
                rw [heq] at hfst ⊢
                exact ih img hfst
              · have heq : selectFromCacheLoop p (some t) (img :: rest) =
                    selectFromCacheLoop p (some t) rest := by
                  simp only [selectFromCacheLoop]
                  rw [if_neg h1, if_neg h2, if_neg h3, if_neg h4]
                  simp [h5]
                rw [heq] at hfst ⊢
                exact ih t hfst

theorem selectFromCacheLoop_accept (p : CacheLookupParams) :
    ∀ (l : List CachedImageMeta) (tc : Option CachedImageMeta) (img : CachedImageMeta),
      img ∈ l →
      ¬(img.isRodProjectFormat = true ∧ p.projectCanonical ≠ img.rod) →
      ¬((img.comps.isColorPlane = true ∧ p.nodePrefComps.isColorPlane = true ∧
          img.comps ≠ p.nodePrefComps) ∨ img.depth ≠ p.nodePrefDepth) →
      img.comps.isConvertibleTo p.components = true →
      getSizeOfForBitDepth img.depth ≥ getSizeOfForBitDepth p.bitdepth →
      img.mipMapLevel ≤ p.mipMapLevel →
      ¬((selectFromCacheLoop p tc l).1 = none ∧ (selectFromCacheLoop p tc l).2 = none) := by
  intro l
  induction l with
  | nil =>
      intro tc img hmem
      simp at hmem
  | cons a rest ih =>
      intro tc img hmem h1 h2 hconv hsize hmip ⟨hfst, hsnd⟩
      rcases List.mem_cons.1 hmem with rfl | hmem2
      · -- the qualifying image is the head: it cannot be skipped
        by_cases h3 : img.mipMapLevel = p.mipMapLevel ∧
            img.comps.isConvertibleTo p.components = true ∧
            getSizeOfForBitDepth img.depth ≥ getSizeOfForBitDepth p.bitdepth
        · have heq : selectFromCacheLoop p tc (img :: rest) = (some img, tc) := by
            simp only [selectFromCacheLoop]
            rw [if_neg h1, if_neg h2, if_pos h3]
          rw [heq] at hfst
          simp at hfst
        · have hlt : img.mipMapLevel < p.mipMapLevel := by
            rcases lt_or_eq_of_le hmip with h | h
            · exact h
            · exact absurd ⟨h, hconv, hsize⟩ h3
          have h4 : ¬(img.mipMapLevel ≥ p.mipMapLevel ∨
              img.comps.isConvertibleTo p.components ≠ true ∨
              getSizeOfForBitDepth img.depth < getSizeOfForBitDepth p.bitdepth) := by
            push_neg
            exact ⟨hlt, by simpa using hconv, hsize⟩
          cases htcv : tc with
          | none =>
              have heq : selectFromCacheLoop p tc (img :: rest) =
                  selectFromCacheLoop p (some img) rest := by
                rw [htcv]
                simp only [selectFromCacheLoop]
                rw [if_neg h1, if_neg h2, if_neg h3, if_neg h4]
              rw [heq] at hfst hsnd
              obtain ⟨u, hu⟩ := selectFromCacheLoop_some_snd p rest img hfst
              rw [hu] at hsnd
              exact absurd hsnd (by simp)
          | some cur =>
              by_cases h5 : img.mipMapLevel > cur.mipMapLevel
              · have heq : selectFromCacheLoop p tc (img :: rest) =
                    selectFromCacheLoop p (some img) rest := by
                  rw [htcv]
                  simp only [selectFromCacheLoop]
                  rw [if_neg h1, if_neg h2, if_neg h3, if_neg h4]
                  simp [h5]
                rw [heq] at hfst hsnd
                obtain ⟨u, hu⟩ := selectFromCacheLoop_some_snd p rest img hfst
                rw [hu] at hsnd
                exact absurd hsnd (by simp)
              · have heq : selectFromCacheLoop p tc (img :: rest) =
                    selectFromCacheLoop p (some cur) rest := by
                  rw [htcv]
                  simp only [selectFromCacheLoop]
                  rw [if_neg h1, if_neg h2, if_neg h3, if_neg h4]
                  simp [h5]
                rw [heq] at hfst hsnd
                obtain ⟨u, hu⟩ := selectFromCacheLoop_some_snd p rest cur hfst
                rw [hu] at hsnd
                exact absurd hsnd (by simp)
      · -- the qualifying image lies in the tail: every branch recurses or succeeds
        by_cases ha1 : a.isRodProjectFormat = true ∧ p.projectCanonical ≠ a.rod
        · have heq : selectFromCacheLoop p tc (a :: rest) = selectFromCacheLoop p tc rest := by
            simp [selectFromCacheLoop, ha1]
          rw [heq] at hfst hsnd
          exact ih tc img hmem2 h1 h2 hconv hsize hmip ⟨hfst, hsnd⟩
        · by_cases ha2 : (a.comps.isColorPlane = true ∧ p.nodePrefComps.isColorPlane = true ∧
              a.comps ≠ p.nodePrefComps) ∨ a.depth ≠ p.nodePrefDepth
          · have heq : selectFromCacheLoop p tc (a :: rest) = selectFromCacheLoop p tc rest := by
              simp only [selectFromCacheLoop]
              rw [if_neg ha1, if_pos ha2]
            rw [heq] at hfst hsnd
            exact ih tc img hmem2 h1 h2 hconv hsize hmip ⟨hfst, hsnd⟩
          · by_cases ha3 : a.mipMapLevel = p.mipMapLevel ∧
                a.comps.isConvertibleTo p.components = true ∧
                getSizeOfForBitDepth a.depth ≥ getSizeOfForBitDepth p.bitdepth
            · have heq : selectFromCacheLoop p tc (a :: rest) = (some a, tc) := by
                simp only [selectFromCacheLoop]
                rw [if_neg ha1, if_neg ha2, if_pos ha3]
              rw [heq] at hfst
              simp at hfst
            · by_cases ha4 : a.mipMapLevel ≥ p.mipMapLevel ∨
                  a.comps.isConvertibleTo p.components ≠ true ∨
                  getSizeOfForBitDepth a.depth < getSizeOfForBitDepth p.bitdepth
              · have heq : selectFromCacheLoop p tc (a :: rest) =
                    selectFromCacheLoop p tc rest := by
                  simp only [selectFromCacheLoop]
                  rw [if_neg ha1, if_neg ha2, if_neg ha3, if_pos ha4]
                rw [heq] at hfst hsnd
                exact ih tc img hmem2 h1 h2 hconv hsize hmip ⟨hfst, hsnd⟩
              · cases htcv : tc with
                | none =>
                    have heq : selectFromCacheLoop p tc (a :: rest) =
                        selectFromCacheLoop p (some a) rest := by
                      rw [htcv]
                      simp only [selectFromCacheLoop]
                      rw [if_neg ha1, if_neg ha2, if_neg ha3, if_neg ha4]
                    rw [heq] at hfst hsnd
                    exact ih (some a) img hmem2 h1 h2 hconv hsize hmip ⟨hfst, hsnd⟩
                | some cur =>
                    by_cases ha5 : a.mipMapLevel > cur.mipMapLevel
                    · have heq : selectFromCacheLoop p tc (a :: rest) =
                          selectFromCacheLoop p (some a) rest := by
                        rw [htcv]
                        simp only [selectFromCacheLoop]
                        rw [if_neg ha1, if_neg ha2, if_neg ha3, if_neg ha4]
                        simp [ha5]
                      rw [heq] at hfst hsnd
                      exact ih (some a) img hmem2 h1 h2 hconv hsize hmip ⟨hfst, hsnd⟩
                    · have heq : selectFromCacheLoop p tc (a :: rest) =
                          selectFromCacheLoop p (some cur) rest := by
                        rw [htcv]
                        simp only [selectFromCacheLoop]
                        rw [if_neg ha1, if_neg ha2, if_neg ha3, if_neg ha4]
                        simp [ha5]
                      rw [heq] at hfst hsnd
                      exact ih (some cur) img hmem2 h1 h2 hconv hsize hmip ⟨hfst, hsnd⟩

/-- Claim C2: a cache lookup never selects an image whose bit depth is
smaller than the requested bit depth.  Any image selected by
`getImageFromCacheResult` comes from the candidate list, has bit depth at
least the requested depth, components convertible to the requested ones, and
mipmap level at most the requested level — an exact match has the same
mipmap level, and any other selection is a strictly-lower-mipmap
(higher-resolution) downscale source.  Conversely an image at a lower mipmap
level that passes the eviction filters, is convertible and at least as deep
is accepted (the lookup does not come back empty), while images at a
higher-or-equal (non-exact) mipmap level, with non-convertible components or
with smaller bit depth are never selected. -/
theorem cacheLookup_bitDepth_and_resolution (p : CacheLookupParams)
    (l : List CachedImageMeta) :
    (∀ m, getImageFromCacheResult p l = some m →
      m ∈ l ∧
      getSizeOfForBitDepth m.depth ≥ getSizeOfForBitDepth p.bitdepth ∧
      m.comps.isConvertibleTo p.components = true ∧
      m.mipMapLevel ≤ p.mipMapLevel) ∧
    (∀ img, img ∈ l →
      ¬(img.isRodProjectFormat = true ∧ p.projectCanonical ≠ img.rod) →
      ¬((img.comps.isColorPlane = true ∧ p.nodePrefComps.isColorPlane = true ∧
          img.comps ≠ p.nodePrefComps) ∨ img.depth ≠ p.nodePrefDepth) →
      img.comps.isConvertibleTo p.components = true →
      getSizeOfForBitDepth img.depth ≥ getSizeOfForBitDepth p.bitdepth →
      img.mipMapLevel ≤ p.mipMapLevel →
      getImageFromCacheResult p l ≠ none) := by
  constructor
  · intro m hm
    have hsafe := selectFromCacheLoop_safe p l none (by intro x hx; simp at hx)
    unfold getImageFromCacheResult at hm
    cases hfst : (selectFromCacheLoop p none l).1 with
    | some e =>
        rw [hfst] at hm
        have hem : e = m := by simpa using hm
        subst hem
        obtain ⟨hmem2, hmipeq, hus⟩ := hsafe.1 e hfst
        obtain ⟨ha, hb, hc2⟩ := hus
        exact ⟨hmem2, ha, hb, hc2⟩
    | none =>
        rw [hfst] at hm
        rcases hsafe.2 m hfst hm with ⟨hmem2, hd⟩ | h
        · obtain ⟨⟨ha, hb, hc2⟩, _⟩ := hd
          exact ⟨hmem2, ha, hb, hc2⟩
        · simp at h
  · intro img hmem h1 h2 hconv hsize hmip hnone
    have haccept := selectFromCacheLoop_accept p l none img hmem h1 h2 hconv hsize hmip
    unfold getImageFromCacheResult at hnone
    cases hfst : (selectFromCacheLoop p none l).1 with
    | some e => rw [hfst] at hnone; simp at hnone
    | none =>
        rw [hfst] at hnone
        exact haccept ⟨hfst, hnone⟩

/-- Witness for claim C2's theorem: with requested level 1, float depth and
RGBA color components, a list holding one short-depth entry (evicted by the
node-preference filter) and one float entry at level 0 selects the float
entry, which is at least as deep as requested; the same float entry also
witnesses the acceptance direction. -/
theorem cacheLookup_bitDepth_and_resolution_witness :
    getImageFromCacheResult
        ⟨⟨0, 0, 100, 100⟩, 1, .float, ⟨0, true, 4⟩, ⟨0, true, 4⟩, .float⟩
        [⟨1, ⟨0, true, 4⟩, .short, false, ⟨0, 0, 50, 50⟩⟩,
         ⟨0, ⟨0, true, 4⟩, .float, false, ⟨0, 0, 50, 50⟩⟩] =
      some ⟨0, ⟨0, true, 4⟩, .float, false, ⟨0, 0, 50, 50⟩⟩ ∧
    getSizeOfForBitDepth BitDepth.float ≥ getSizeOfForBitDepth BitDepth.float ∧
    getImageFromCacheResult
        ⟨⟨0, 0, 100, 100⟩, 1, .float, ⟨0, true, 4⟩, ⟨0, true, 4⟩, .float⟩
        [⟨1, ⟨0, true, 4⟩, .short, false, ⟨0, 0, 50, 50⟩⟩,
         ⟨0, ⟨0, true, 4⟩, .float, false, ⟨0, 0, 50, 50⟩⟩] ≠ none := by
  refine ⟨by decide, ?_, ?_⟩
  · exact le_refl _
  · exact (cacheLookup_bitDepth_and_resolution
        ⟨⟨0, 0, 100, 100⟩, 1, .float, ⟨0, true, 4⟩, ⟨0, true, 4⟩, .float⟩
        [⟨1, ⟨0, true, 4⟩, .short, false, ⟨0, 0, 50, 50⟩⟩,
         ⟨0, ⟨0, true, 4⟩, .float, false, ⟨0, 0, 50, 50⟩⟩]).2
      ⟨0, ⟨0, true, 4⟩, .float, false, ⟨0, 0, 50, 50⟩⟩
      (by decide) (by decide) (by decide) (by decide) (by decide) (by decide)

end Natron

/-! ## Infinity heuristic on the region of definition (claim C6)

Embedding of `EffectInstance::ifInfiniteApplyHeuristic` (EffectInstance.cpp
lines 1336-1433).  The union of the upstream inputs' RoDs is initialized
with `calcDefaultRegionOfDefinition` and the first successfully queried
input replaces it, later ones are merged (lines 1361-1385); each infinite
side is then corrected, and after correcting a side the opposite side of the
same axis is clamped so the rectangle stays well-formed (lines 1391-1426). -/

namespace Natron

/-- `kOfxFlagInfiniteMax` (INT_MAX). -/
def kOfxFlagInfiniteMax : Rat := 2147483647

/-- `kOfxFlagInfiniteMin` (INT_MIN). -/
def kOfxFlagInfiniteMin : Rat := -2147483648

/-- Lines 1357-1385: the union of the inputs' RoDs.  `defaultRoD` is the
result of `calcDefaultRegionOfDefinition`; each entry of `inputRods` is the
RoD of one input slot (`none` when the slot is unconnected or the input's
`getRegionOfDefinition_public` failed).  The first successful input replaces
the default, later ones are merged in. -/
def computeInputsUnion (defaultRoD : RectD) (inputRods : List (Option RectD)) : RectD :=
  (inputRods.foldl
    (fun acc o =>
      match o with
      | none => acc
      | some r => if acc.2 then (r, false) else (acc.1.merge r, false))
    (defaultRoD, true)).1

/-- Correction applied to an infinite lower side: the min of the inputs
union's side and the project default's side, or the project default alone
when the union is null (lines 1391-1397 and friends). -/
def heurLow (u : RectD) (uv pdv : Rat) : Rat :=
  if u.isNull = true then pdv else min uv pdv

/-- Correction applied to an infinite upper side. -/
def heurHigh (u : RectD) (uv pdv : Rat) : Rat :=
  if u.isNull = true then pdv else max uv pdv

/-- `EffectInstance::ifInfiniteApplyHeuristic`: corrects every infinite side
of `rod`, reading the project default and (when some side is infinite) the
inputs union; returns the corrected rectangle together with the
`isProjectFormat` flag (set only when a side fell back to the project
default and the effect is a generator). -/
def ifInfiniteApplyHeuristic (projectDefault defaultRoD : RectD)
    (inputRods : List (Option RectD)) (isGenerator : Bool) (rod : RectD) :
    RectD × Bool :=
  let x1Infinite := rod.x1 ≤ kOfxFlagInfiniteMin
  let y1Infinite := rod.y1 ≤ kOfxFlagInfiniteMin
  let x2Infinite := rod.x2 ≥ kOfxFlagInfiniteMax
  let y2Infinite := rod.y2 ≥ kOfxFlagInfiniteMax
  let inputsUnion :=
    if x1Infinite ∨ y1Infinite ∨ x2Infinite ∨ y2Infinite then
      computeInputsUnion defaultRoD inputRods
    else RectD.zero
  let fmt0 := false
  let r1 :=
    if x1Infinite then
      let nx1 := heurLow inputsUnion inputsUnion.x1 projectDefault.x1
      { rod with x1 := nx1, x2 := max nx1 rod.x2 }
    else rod
  let fmt1 := fmt0 ∨ (x1Infinite ∧ inputsUnion.isNull = true)
  let r2 :=
    if y1Infinite then
      let ny1 := heurLow inputsUnion inputsUnion.y1 projectDefault.y1
      { r1 with y1 := ny1, y2 := max ny1 r1.y2 }
    else r1
  let fmt2 := fmt1 ∨ (y1Infinite ∧ inputsUnion.isNull = true)
  let r3 :=
    if x2Infinite then
      let nx2 := heurHigh inputsUnion inputsUnion.x2 projectDefault.x2
      { r2 with x2 := nx2, x1 := min r2.x1 nx2 }
    else r2
  let fmt3 := fmt2 ∨ (x2Infinite ∧ inputsUnion.isNull = true)
  let r4 :=
    if y2Infinite then
      let ny2 := heurHigh inputsUnion inputsUnion.y2 projectDefault.y2
      { r3 with y2 := ny2, y1 := min r3.y1 ny2 }
    else r3
  let fmt4 := fmt3 ∨ (y2Infinite ∧ inputsUnion.isNull = true)
  (r4, fmt4 ∧ isGenerator = true)

/-- Counterexample to claim C6 as stated.  One input is connected with RoD
(5,0)-(10,10) (so an upstream RoD is available and the inputs union is not
null, with lower x side 5), the project default is (0,0)-(20,20), and the
node's RoD has an infinite x1.  The claim predicts x1 is clipped to the
inputs-union side 5; the code instead takes `min(unionX1, projectDefaultX1)
= 0`, folding the project default in even though an input RoD is
available. -/
theorem infinityHeuristic_counterexample :
    (computeInputsUnion ⟨0, 0, 1, 1⟩ [some ⟨5, 0, 10, 10⟩]).isNull = false ∧
    (computeInputsUnion ⟨0, 0, 1, 1⟩ [some ⟨5, 0, 10, 10⟩]).x1 = 5 ∧
    (ifInfiniteApplyHeuristic ⟨0, 0, 20, 20⟩ ⟨0, 0, 1, 1⟩ [some ⟨5, 0, 10, 10⟩] false
        ⟨-2147483648, 0, 12, 10⟩).1.x1 = 0 := by
  refine ⟨by decide, by decide, by decide⟩

theorem heurLow_le_heurHigh (u : RectD) (u1 u2 p1 p2 : Rat) (hp : p1 ≤ p2) :
    heurLow u u1 p1 ≤ heurHigh u u2 p2 := by
  unfold heurLow heurHigh
  by_cases hn : u.isNull = true
  · simpa [hn] using hp
  · simp only [hn, if_false]
    exact le_trans (min_le_right _ _) (le_trans hp (le_max_right _ _))

/-- Claim C6 amended: when a side of the RoD is infinite it is corrected to
the union of the inputs-union side and the project-default side (min for
lower sides, max for upper sides); only when the inputs union is null (no
input RoD and a null default) does it fall back to the project default
alone.  A finite side is left unchanged unless the opposite side of the same
axis was infinite, in which case it is clamped against the corrected value
so that the rectangle stays well-formed (`x2 := max(x1,x2)` after fixing
`x1`, `x1 := min(x1,x2)` after fixing `x2`, and symmetrically in y). -/
theorem infinityHeuristic_amended (projectDefault defaultRoD : RectD)
    (inputRods : List (Option RectD)) (isGenerator : Bool) (rod : RectD)
    (hpx : projectDefault.x1 ≤ projectDefault.x2)
    (hpy : projectDefault.y1 ≤ projectDefault.y2) :
    (rod.x1 ≤ kOfxFlagInfiniteMin ∨ rod.y1 ≤ kOfxFlagInfiniteMin ∨
        rod.x2 ≥ kOfxFlagInfiniteMax ∨ rod.y2 ≥ kOfxFlagInfiniteMax) →
    (computeInputsUnion defaultRoD inputRods = uni) →
    ((ifInfiniteApplyHeuristic projectDefault defaultRoD inputRods isGenerator rod).1.x1 =
        (if rod.x1 ≤ kOfxFlagInfiniteMin then heurLow uni uni.x1 projectDefault.x1
         else if rod.x2 ≥ kOfxFlagInfiniteMax then
           min rod.x1 (heurHigh uni uni.x2 projectDefault.x2)
         else rod.x1)) ∧
    ((ifInfiniteApplyHeuristic projectDefault defaultRoD inputRods isGenerator rod).1.x2 =
        (if rod.x2 ≥ kOfxFlagInfiniteMax then heurHigh uni uni.x2 projectDefault.x2
         else if rod.x1 ≤ kOfxFlagInfiniteMin then
           max (heurLow uni uni.x1 projectDefault.x1) rod.x2
         else rod.x2)) ∧
    ((ifInfiniteApplyHeuristic projectDefault defaultRoD inputRods isGenerator rod).1.y1 =
        (if rod.y1 ≤ kOfxFlagInfiniteMin then heurLow uni uni.y1 projectDefault.y1
         else if rod.y2 ≥ kOfxFlagInfiniteMax then
           min rod.y1 (heurHigh uni uni.y2 projectDefault.y2)
         else rod.y1)) ∧
    ((ifInfiniteApplyHeuristic projectDefault defaultRoD inputRods isGenerator rod).1.y2 =
        (if rod.y2 ≥ kOfxFlagInfiniteMax then heurHigh uni uni.y2 projectDefault.y2
         else if rod.y1 ≤ kOfxFlagInfiniteMin then
           max (heurLow uni uni.y1 projectDefault.y1) rod.y2
         else rod.y2)) := by
  intro hinf huni
  have hAx : heurLow uni uni.x1 projectDefault.x1 ≤ heurHigh uni uni.x2 projectDefault.x2 :=
    heurLow_le_heurHigh uni _ _ _ _ hpx
  have hAy : heurLow uni uni.y1 projectDefault.y1 ≤ heurHigh uni uni.y2 projectDefault.y2 :=
    heurLow_le_heurHigh uni _ _ _ _ hpy
  unfold ifInfiniteApplyHeuristic
  by_cases hx1 : rod.x1 ≤ kOfxFlagInfiniteMin <;>
    by_cases hx2 : rod.x2 ≥ kOfxFlagInfiniteMax <;>
      by_cases hy1 : rod.y1 ≤ kOfxFlagInfiniteMin <;>
        by_cases hy2 : rod.y2 ≥ kOfxFlagInfiniteMax <;>
          simp only [hx1, hx2, hy1, hy2, hinf, if_true, if_false, ite_true, ite_false,
            true_or, or_true, false_or, or_false, if_pos, huni] <;>
          simp_all [min_eq_left hAx, min_eq_left hAy, max_comm]

/-- Witness for the amended claim C6 at a concrete input: with project
default (0,0)-(20,20), one input of RoD (5,0)-(10,10) and a RoD whose x1 is
infinite, the corrected x1 is `min(5, 0) = 0` and the finite sides keep
their values. -/
theorem infinityHeuristic_amended_witness :
    (ifInfiniteApplyHeuristic ⟨0, 0, 20, 20⟩ ⟨0, 0, 1, 1⟩ [some ⟨5, 0, 10, 10⟩] false
        ⟨-2147483648, 0, 12, 10⟩).1.x1 = 0 ∧
    (ifInfiniteApplyHeuristic ⟨0, 0, 20, 20⟩ ⟨0, 0, 1, 1⟩ [some ⟨5, 0, 10, 10⟩] false
        ⟨-2147483648, 0, 12, 10⟩).1.x2 = 12 := by
  have h := infinityHeuristic_amended ⟨0, 0, 20, 20⟩ ⟨0, 0, 1, 1⟩ [some ⟨5, 0, 10, 10⟩]
      false ⟨-2147483648, 0, 12, 10⟩ (by decide) (by decide) (Or.inl (by decide))
      (show computeInputsUnion ⟨0, 0, 1, 1⟩ [some ⟨5, 0, 10, 10⟩] = ⟨5, 0, 10, 10⟩ by decide)
  constructor
  · rw [h.1]; decide
  · rw [h.2.1]; decide

end Natron

/-! ## Output scheduler delivery order (claim C4)

Only the interface of the scheduler is among the given sources
(src/unnamed/part_000, OutputSchedulerThread.h): `appendToBuffer(time, view,
frame)` buffers a rendered frame "to make sure the output device … will
proceed the frames in respect to the time parameter".  The buffer and the
consumer loop live in OutputSchedulerThread.cpp, which is not part of the
sources, so they are modelled from the spec. -/

namespace Natron

/-- `OutputSchedulerThread::RenderDirection` (part_000 lines 90-93). -/
inductive RenderDirection where
  | forward
  | backward
deriving DecidableEq, Repr

/-- Modelled from the spec: a scheduler buffer entry is a tuple
(frame-index, view, image-handle), unique by (frame-index, view), ordered by
the current render direction (spec section 3, "Scheduler buffer entry"). -/
structure BufferedFrame where
  time : Int
  view : Int
  frame : Nat
deriving DecidableEq, Repr

/-- Frame order induced by the render direction. -/
def frameBefore (dir : RenderDirection) (a b : Int) : Prop :=
  match dir with
  | .forward => a ≤ b
  | .backward => b ≤ a

instance (dir : RenderDirection) (a b : Int) : Decidable (frameBefore dir a b) := by
  cases dir <;> (unfold frameBefore; infer_instance)

/-- Modelled from the spec: ordered insertion into the scheduler buffer
(`appendToBuffer` "inserts into an ordered buffer keyed by the expected
frame", spec section 4.5). -/
def bufferInsert (dir : RenderDirection) (f : BufferedFrame) :
    List BufferedFrame → List BufferedFrame
  | [] => [f]
  | g :: rest =>
    if frameBefore dir f.time g.time then f :: g :: rest
    else g :: bufferInsert dir f rest

/-- Modelled from the spec: the scheduler state visible to the ordering
argument — the ordered buffer, the frames already delivered to the output
device (in delivery order), the next expected frame and the run's
direction. -/
structure SchedulerState where
  buffer : List BufferedFrame
  delivered : List Int
  expectedFrame : Int
  direction : RenderDirection

/-- The consumer advances the expected frame by one step in the run's
direction after delivering it. -/
def advanceFrame (dir : RenderDirection) (t : Int) : Int :=
  match dir with
  | .forward => t + 1
  | .backward => t - 1

/-- Modelled from the spec: one scheduler transition within a run — either a
producer appends a rendered frame into the ordered buffer, or the consumer,
finding the expected frame at the head of the buffer, delivers it to the
output device, removes it and advances the expected frame (spec section 4.5,
"append inserts into an ordered buffer … the consumer pulls the
lowest-expected frame in buffer-order, calls deliver, advances the expected
frame, and removes the entry"). -/
inductive SchedulerStep : SchedulerState → SchedulerState → Prop where
  | append (s : SchedulerState) (f : BufferedFrame) :
      SchedulerStep s { s with buffer := bufferInsert s.direction f s.buffer }
  | deliver (s : SchedulerState) (f : BufferedFrame) (rest : List BufferedFrame) :
      s.buffer = f :: rest →
      f.time = s.expectedFrame →
      SchedulerStep s
        { s with
          buffer := rest
          delivered := s.delivered ++ [f.time]
          expectedFrame := advanceFrame s.direction s.expectedFrame }

/-- The state at the start of a run: empty buffer, nothing delivered, the
range's first frame expected. -/
def SchedulerState.init (startFrame : Int) (dir : RenderDirection) : SchedulerState :=
  ⟨[], [], startFrame, dir⟩

/-- States reachable within one run. -/
def SchedulerReachable (s t : SchedulerState) : Prop :=
  Relation.ReflTransGen SchedulerStep s t

/-- The ordering invariant: the delivered list is pairwise ordered by the
run's direction and every delivered frame strictly precedes the expected
frame. -/
def deliveredInvariant (s : SchedulerState) : Prop :=
  s.delivered.Pairwise (frameBefore s.direction) ∧
  ∀ d ∈ s.delivered, frameBefore s.direction d s.expectedFrame ∧ d ≠ s.expectedFrame

theorem schedulerStep_direction {s t : SchedulerState} (h : SchedulerStep s t) :
    t.direction = s.direction := by
  cases h <;> rfl

theorem schedulerStep_invariant {s t : SchedulerState} (h : SchedulerStep s t)
    (hs : deliveredInvariant s) : deliveredInvariant t := by
  cases h with
  | append f => exact hs
  | deliver f rest hbuf htime =>
      obtain ⟨hpair, hbound⟩ := hs
      unfold deliveredInvariant
      dsimp only
      constructor
      · rw [List.pairwise_append]
        refine ⟨hpair, by simp, ?_⟩
        intro a ha b hb
        simp only [List.mem_singleton] at hb
        subst hb
        rw [htime]
        exact (hbound a ha).1
      · intro d hd
        rw [List.mem_append, List.mem_singleton] at hd
        have hcases : d ∈ s.delivered ∨ d = s.expectedFrame := by
          rcases hd with hd | hd
          · exact Or.inl hd
          · exact Or.inr (hd.trans htime)
        cases hdir : s.direction with
        | forward =>
            simp only [hdir, frameBefore, advanceFrame]
            rcases hcases with hd2 | hd2
            · have hb2 := hbound d hd2
              rw [hdir] at hb2
              simp only [frameBefore] at hb2
              obtain ⟨hb3, hb4⟩ := hb2
              omega
            · subst hd2
              omega
        | backward =>
            simp only [hdir, frameBefore, advanceFrame]
            rcases hcases with hd2 | hd2
            · have hb2 := hbound d hd2
              rw [hdir] at hb2
              simp only [frameBefore] at hb2
              obtain ⟨hb3, hb4⟩ := hb2
              omega
            · subst hd2
              omega

/-- Claim C4: for every pair of frames delivered to the output device within
one scheduler run, if `t1` was delivered before `t2` then `t1 ≤ t2` when the
direction is forward and `t1 ≥ t2` when it is backward: in every state
reachable from the start of a run, the delivered list is pairwise ordered by
the run's direction.  The ordered buffer together with the expected-frame
gate of the consumer is the mechanism: appends go through `bufferInsert` and
only the buffer head carrying the expected frame is ever delivered. -/
theorem scheduler_delivery_order (startFrame : Int) (dir : RenderDirection)
    (s : SchedulerState)
    (hreach : SchedulerReachable (SchedulerState.init startFrame dir) s) :
    s.delivered.Pairwise (frameBefore dir) := by
  have hmain : deliveredInvariant s ∧ s.direction = dir := by
    induction hreach with
    | refl =>
        refine ⟨⟨by simp [SchedulerState.init], by simp [SchedulerState.init]⟩, rfl⟩
    | tail hstep hlast ih =>
        obtain ⟨hinv, hdir⟩ := ih
        exact ⟨schedulerStep_invariant hlast hinv, (schedulerStep_direction hlast).trans hdir⟩
  rw [← hmain.2]
  exact hmain.1.1

/-- Witness for claim C4's theorem: a concrete forward run delivering frames
1 then 2 — producer appends frame 2, then frame 1 (out of order), the
consumer delivers 1 and then 2; the delivered list [1, 2] is pairwise
ordered. -/
theorem scheduler_delivery_order_witness :
    List.Pairwise (frameBefore RenderDirection.forward) [(1 : Int), 2] := by
  have h1 : SchedulerStep (SchedulerState.init 1 .forward)
      ⟨[⟨2, 0, 102⟩], [], 1, .forward⟩ := by
    have := SchedulerStep.append (SchedulerState.init 1 .forward) ⟨2, 0, 102⟩
    simpa [SchedulerState.init, bufferInsert] using this
  have h2 : SchedulerStep (⟨[⟨2, 0, 102⟩], [], 1, .forward⟩ : SchedulerState)
      ⟨[⟨1, 0, 101⟩, ⟨2, 0, 102⟩], [], 1, .forward⟩ := by
    have := SchedulerStep.append (⟨[⟨2, 0, 102⟩], [], 1, .forward⟩ : SchedulerState) ⟨1, 0, 101⟩
    simpa [bufferInsert, frameBefore] using this
  have h3 : SchedulerStep (⟨[⟨1, 0, 101⟩, ⟨2, 0, 102⟩], [], 1, .forward⟩ : SchedulerState)
      ⟨[⟨2, 0, 102⟩], [1], 2, .forward⟩ := by
    have := SchedulerStep.deliver (⟨[⟨1, 0, 101⟩, ⟨2, 0, 102⟩], [], 1, .forward⟩ : SchedulerState)
      ⟨1, 0, 101⟩ [⟨2, 0, 102⟩] rfl rfl
    simpa [advanceFrame] using this
  have h4 : SchedulerStep (⟨[⟨2, 0, 102⟩], [1], 2, .forward⟩ : SchedulerState)
      ⟨[], [1, 2], 3, .forward⟩ := by
    have := SchedulerStep.deliver (⟨[⟨2, 0, 102⟩], [1], 2, .forward⟩ : SchedulerState)
      ⟨2, 0, 102⟩ [] rfl rfl
    simpa [advanceFrame] using this
  have hreach : SchedulerReachable (SchedulerState.init 1 .forward)
      ⟨[], [1, 2], 3, .forward⟩ :=
    Relation.ReflTransGen.head h1 (Relation.ReflTransGen.head h2
      (Relation.ReflTransGen.head h3 (Relation.ReflTransGen.single h4)))
  exact scheduler_delivery_order 1 .forward ⟨[], [1, 2], 3, .forward⟩ hreach

end Natron

/-! ## Tile rendering failure (claim C7)

Embedding of the tail of `EffectInstance::tiledRenderingFunctor`
(EffectInstance.cpp lines 3711-3819): under the tri-map protocol the first
plane's relevant bitmap is marked `rendering` over the rectangle (lines
3711-3719), the effect's `render` is invoked, and on a non-OK status every
plane's relevant bitmap is cleared over the rectangle and the worker returns
`eRenderingFunctorRetFailed` (lines 3748-3765).  The per-cell bitmap
primitives live in Image.cpp, which is not among the given sources; they are
modelled from the spec (section 4.2: `mark_rendering` sets covered cells
from unrendered to rendering, `clear` reverts rendering cells to unrendered,
`mark_rendered` sets cells to rendered). -/

namespace Natron

/-- Tile bitmap cell states (spec section 3). -/
inductive CellState where
  | unrendered
  | rendering
  | rendered
deriving DecidableEq, Repr

/-- A tile bitmap: the rendering state of each pixel cell. -/
def Bitmap : Type := Int → Int → CellState

/-- Membership of a pixel cell in a pixel rectangle. -/
def RectI.containsPoint (r : RectI) (x y : Int) : Bool :=
  r.x1 ≤ x && x < r.x2 && r.y1 ≤ y && y < r.y2

/-- Modelled from the spec: `Image::markForRendering(rect)` sets cells
covered by the rect from unrendered to rendering (Image.cpp not in the
sources; spec section 4.2 `mark_rendering`). -/
def markForRendering (b : Bitmap) (r : RectI) : Bitmap :=
  fun x y =>
    if r.containsPoint x y = true ∧ b x y = CellState.unrendered then CellState.rendering
    else b x y

/-- Modelled from the spec: `Image::clearBitmap(rect)` reverts rendering
cells covered by the rect to unrendered (spec section 4.2 `clear`). -/
def clearBitmap (b : Bitmap) (r : RectI) : Bitmap :=
  fun x y =>
    if r.containsPoint x y = true ∧ b x y = CellState.rendering then CellState.unrendered
    else b x y

/-- Modelled from the spec: `Image::markForRendered(rect)` sets cells
covered by the rect to rendered (spec section 4.2 `mark_rendered`). -/
def markForRendered (b : Bitmap) (r : RectI) : Bitmap :=
  fun x y =>
    if r.containsPoint x y = true then CellState.rendered
    else b x y

/-- `Natron::StatusEnum` as observed by the functor. -/
inductive StatusEnum where
  | ok
  | failed
deriving DecidableEq, Repr

/-- `EffectInstance::RenderingFunctorRetEnum`. -/
inductive RenderingFunctorRet where
  | failed
  | ok
  | takeImageLock
  | aborted
deriving DecidableEq, Repr

/-- The flags of the functor's context that the tail reads. -/
structure TiledFunctorFlags where
  canAbort : Bool
  isRenderResponseToUserInteraction : Bool
  renderFullScaleThenDownscale : Bool
  renderUseScaleOneInputs : Bool

/-- The two bitmaps of one plane to render. -/
structure PlaneBitmaps where
  fullscale : Bitmap
  downscale : Bitmap

/-- The tri-map protocol is only used when the render cannot be aborted and
answers user interaction (lines 3712, 3750). -/
def trimapActive (fl : TiledFunctorFlags) : Bool :=
  !fl.canAbort && fl.isRenderResponseToUserInteraction

/-- Whether the full-scale image's bitmap is the one marked and cleared
(lines 3713, 3754). -/
def useFullScaleBitmap (fl : TiledFunctorFlags) : Bool :=
  fl.renderFullScaleThenDownscale && fl.renderUseScaleOneInputs

/-- The rectangle whose cells the functor marks: `renderRectToRender` on the
full-scale bitmap, `downscaledRectToRender` on the downscale bitmap. -/
def relevantRect (fl : TiledFunctorFlags) (renderRect downscaledRect : RectI) : RectI :=
  if useFullScaleBitmap fl then renderRect else downscaledRect

/-- The bitmap of a plane the functor marks and clears. -/
def relevantBitmap (fl : TiledFunctorFlags) (p : PlaneBitmaps) : Bitmap :=
  if useFullScaleBitmap fl then p.fullscale else p.downscale

/-- Lines 3711-3819 of `tiledRenderingFunctor`: mark the first plane's
relevant bitmap `rendering` over the rectangle when the tri-map protocol is
active, run `render_public` (its status is `renderStatus`), and either— on
failure — clear every plane's relevant bitmap over the rectangle and return
failed, or — on abort — return aborted, or — on success — mark every
plane's relevant bitmap rendered and return OK (or `takeImageLock` when the
image is also being rendered elsewhere). -/
def tiledRenderingFunctorTail (fl : TiledFunctorFlags) (renderStatus : StatusEnum)
    (renderAborted isBeingRenderedElseWhere : Bool) (planes : List PlaneBitmaps)
    (renderRect downscaledRect : RectI) : List PlaneBitmaps × RenderingFunctorRet :=
  let markPlane := fun (p : PlaneBitmaps) =>
    if useFullScaleBitmap fl then
      { p with fullscale := markForRendering p.fullscale renderRect }
    else
      { p with downscale := markForRendering p.downscale downscaledRect }
  let planes1 :=
    if trimapActive fl then
      match planes with
      | [] => []
      | fp :: rest => markPlane fp :: rest
    else planes
  if renderStatus ≠ StatusEnum.ok then
    let clearPlane := fun (p : PlaneBitmaps) =>
      if useFullScaleBitmap fl then
        { p with fullscale := clearBitmap p.fullscale renderRect }
      else
        { p with downscale := clearBitmap p.downscale downscaledRect }
    (if trimapActive fl then planes1.map clearPlane else planes1,
     RenderingFunctorRet.failed)
  else if renderAborted = true then
    (planes1, RenderingFunctorRet.aborted)
  else
    let renderedPlane := fun (p : PlaneBitmaps) =>
      if useFullScaleBitmap fl then
        { p with fullscale := markForRendered p.fullscale renderRect }
      else
        { p with downscale := markForRendered p.downscale downscaledRect }
    (planes1.map renderedPlane,
     if isBeingRenderedElseWhere = true then RenderingFunctorRet.takeImageLock
     else RenderingFunctorRet.ok)

theorem clearBitmap_no_rendering (b : Bitmap) (r : RectI) (x y : Int)
    (hin : r.containsPoint x y = true) :
    clearBitmap b r x y ≠ CellState.rendering := by
  unfold clearBitmap
  by_cases hc : r.containsPoint x y = true ∧ b x y = CellState.rendering
  · simp [hc]
  · rw [if_neg hc]
    intro habs
    exact hc ⟨hin, habs⟩

theorem clearBitmap_mark_unrendered (b : Bitmap) (r : RectI) (x y : Int)
    (hin : r.containsPoint x y = true) (hnr : b x y ≠ CellState.rendered) :
    clearBitmap (markForRendering b r) r x y = CellState.unrendered := by
  unfold clearBitmap markForRendering
  cases hb : b x y with
  | unrendered => simp [hin, hb]
  | rendering => simp [hin, hb]
  | rendered => exact absurd hb hnr

theorem relevantBitmap_clearPlane (fl : TiledFunctorFlags) (rr dr : RectI)
    (p : PlaneBitmaps) :
    relevantBitmap fl
      (if useFullScaleBitmap fl then { p with fullscale := clearBitmap p.fullscale rr }
       else { p with downscale := clearBitmap p.downscale dr }) =
    clearBitmap (relevantBitmap fl p) (relevantRect fl rr dr) := by
  unfold relevantBitmap relevantRect
  cases useFullScaleBitmap fl <;> simp

theorem relevantBitmap_markPlane (fl : TiledFunctorFlags) (rr dr : RectI)
    (p : PlaneBitmaps) :
    relevantBitmap fl
      (if useFullScaleBitmap fl then { p with fullscale := markForRendering p.fullscale rr }
       else { p with downscale := markForRendering p.downscale dr }) =
    markForRendering (relevantBitmap fl p) (relevantRect fl rr dr) := by
  unfold relevantBitmap relevantRect
  cases useFullScaleBitmap fl <;> simp

/-- Claim C7: when the effect's `render` call on a tile returns a failure
status, the tile worker returns `eRenderingFunctorRetFailed` (so the failure
propagates to the enclosing frame), and — under the tri-map protocol that
marked the cells — the tile-bitmap cells covering the rectangle being
rendered are cleared back to unrendered: after the failure path no cell of
the rectangle is left in state `rendering` in any plane, and every cell of
the first (marked) plane that was not already `rendered` by a peer is
`unrendered` again. -/
theorem tiledRenderingFunctor_failure_clears (fl : TiledFunctorFlags)
    (renderAborted isBeingRenderedElseWhere : Bool) (fp : PlaneBitmaps)
    (rest : List PlaneBitmaps) (renderRect downscaledRect : RectI)
    (htri : trimapActive fl = true) :
    (tiledRenderingFunctorTail fl .failed renderAborted isBeingRenderedElseWhere
        (fp :: rest) renderRect downscaledRect).2 = RenderingFunctorRet.failed ∧
    (∀ q ∈ (tiledRenderingFunctorTail fl .failed renderAborted isBeingRenderedElseWhere
        (fp :: rest) renderRect downscaledRect).1, ∀ x y,
      (relevantRect fl renderRect downscaledRect).containsPoint x y = true →
      relevantBitmap fl q x y ≠ CellState.rendering) ∧
    (∀ x y, (relevantRect fl renderRect downscaledRect).containsPoint x y = true →
      relevantBitmap fl fp x y ≠ CellState.rendered →
      ∃ q, (tiledRenderingFunctorTail fl .failed renderAborted isBeingRenderedElseWhere
          (fp :: rest) renderRect downscaledRect).1.head? = some q ∧
        relevantBitmap fl q x y = CellState.unrendered) := by
  have hne : (StatusEnum.failed ≠ StatusEnum.ok) := by decide
  have heval : tiledRenderingFunctorTail fl .failed renderAborted isBeingRenderedElseWhere
      (fp :: rest) renderRect downscaledRect =
      ((if useFullScaleBitmap fl then
          { (if useFullScaleBitmap fl then
              { fp with fullscale := markForRendering fp.fullscale renderRect }
            else
              { fp with downscale := markForRendering fp.downscale downscaledRect }) with
            fullscale := clearBitmap
              (if useFullScaleBitmap fl then
                { fp with fullscale := markForRendering fp.fullscale renderRect }
              else
                { fp with downscale := markForRendering fp.downscale downscaledRect }).fullscale
              renderRect }
        else
          { (if useFullScaleBitmap fl then
              { fp with fullscale := markForRendering fp.fullscale renderRect }
            else
              { fp with downscale := markForRendering fp.downscale downscaledRect }) with
            downscale := clearBitmap
              (if useFullScaleBitmap fl then
                { fp with fullscale := markForRendering fp.fullscale renderRect }
              else
                { fp with downscale := markForRendering fp.downscale downscaledRect }).downscale
              downscaledRect }) ::
        rest.map (fun p =>
          if useFullScaleBitmap fl then
            { p with fullscale := clearBitmap p.fullscale renderRect }
          else
            { p with downscale := clearBitmap p.downscale downscaledRect }),
       RenderingFunctorRet.failed) := by
    unfold tiledRenderingFunctorTail
    rw [htri]
    simp [hne]
  rw [heval]
  refine ⟨rfl, ?_, ?_⟩
  · intro q hq x y hin
    simp only [List.mem_cons, List.mem_map] at hq
    rcases hq with hq | ⟨p2, _, hq⟩
    · rw [hq, relevantBitmap_clearPlane]
      exact clearBitmap_no_rendering _ _ x y hin
    · rw [← hq, relevantBitmap_clearPlane]
      exact clearBitmap_no_rendering _ _ x y hin
  · intro x y hin hnr
    refine ⟨_, rfl, ?_⟩
    rw [relevantBitmap_clearPlane, relevantBitmap_markPlane]
    exact clearBitmap_mark_unrendered _ _ x y hin hnr

/-- Witness for claim C7's theorem: one plane whose cells are all
unrendered, tri-map active, downscale bitmap relevant; after a failed render
on the unit rectangle the worker reports failed and cell (0,0) is unrendered
and not rendering. -/
theorem tiledRenderingFunctor_failure_clears_witness :
    (tiledRenderingFunctorTail ⟨false, true, false, false⟩ .failed false false
        [⟨fun _ _ => CellState.unrendered, fun _ _ => CellState.unrendered⟩]
        ⟨0, 0, 1, 1⟩ ⟨0, 0, 1, 1⟩).2 = RenderingFunctorRet.failed ∧
    (∃ q, (tiledRenderingFunctorTail ⟨false, true, false, false⟩ .failed false false
        [⟨fun _ _ => CellState.unrendered, fun _ _ => CellState.unrendered⟩]
        ⟨0, 0, 1, 1⟩ ⟨0, 0, 1, 1⟩).1.head? = some q ∧
      relevantBitmap ⟨false, true, false, false⟩ q 0 0 = CellState.unrendered) := by
  have h := tiledRenderingFunctor_failure_clears ⟨false, true, false, false⟩ false false
      ⟨fun _ _ => CellState.unrendered, fun _ _ => CellState.unrendered⟩ []
      ⟨0, 0, 1, 1⟩ ⟨0, 0, 1, 1⟩ (by decide)
  exact ⟨h.1, h.2.2 0 0 (by decide) (by simp [relevantBitmap, useFullScaleBitmap])⟩

end Natron

/-! ## The region-of-interest renderer — `renderRoI` (claims C1, C5, C8, C9, C10)

Embedding of `EffectInstance::renderRoI` (EffectInstance.cpp lines
1986-2886).  The effect-specific queries that `renderRoI` performs
(`getRegionOfDefinition_public`, `isIdentity_public`,
`getComponentsAvailable`, the cache lookups, `renderInputImagesForRoI`, the
outcome of `renderRoIInternal`, `aborted()`) are oracles stored in each
node's `NodeData`; the control flow between them is embedded faithfully.
The evaluator returns the status code, the accumulated output planes, and a
trace of the cache-store and effect-render events the node performs, so that
theorems can speak about "render was never invoked" and "nothing was stored
under the node's key".  Modelling notes:
  * recursion is by fuel (the C++ recursion has no structural bound);
    every theorem relates a call at fuel `n+1` to calls at fuel `n`;
  * `supportsRenderScaleMaybe` is a fixed flag (the `eSupportsMaybe`
    re-query returns the same answer for a pure oracle);
  * transform concatenation (lines 2246-2255) only reroutes the inputs,
    which are already behind the `renderInputs` oracle, so it adds nothing
    observable to this embedding;
  * the eviction of last-rendered images under an old hash (lines
    2337-2362) and the trimap image-level marking (lines 2746-2810) touch
    only caching of other keys and waiting, and are not modelled;
  * `renderInputImagesForRoI` recursion into the inputs is an oracle
    returning its status code; its upstream events are outside this node's
    trace;
  * plane maps (`std::map` ordered by component key) are association lists
    in request order. -/

namespace Natron

/-- `EffectInstance::RenderRoIRetCode`. -/
inductive RenderRoIRetCode where
  | ok
  | aborted
  | failed
deriving DecidableEq, Repr

/-- The arguments of `renderRoI` (`EffectInstance::RenderRoIArgs`).  A null
`preComputedRoD` means "not set" exactly as in the C++ (line 2060 tests
`isNull`). -/
structure RenderRoIArgs where
  time : Rat
  view : Int
  mipMapLevel : Nat
  roi : RectI
  components : List ImageComponents
  bitdepth : BitDepth
  byPassCache : Bool
  preComputedRoD : RectD
  channelForAlpha : Int
deriving DecidableEq, Repr

/-- Result of `isIdentity_public`: the call can throw (caught at line 2098),
declare the node not an identity, or yield an input number and time. -/
inductive IdentityAns where
  | exn
  | notIdent
  | ident (inputNb : Int) (inputTime : Rat)
deriving DecidableEq, Repr

/-- A cached plane image as seen by this control flow: only its pixel bounds
are consulted (line 2526). -/
structure CachedPlane where
  bounds : RectI
deriving DecidableEq, Repr

/-- An output plane image handed back by `renderRoI`: the hash of the node
that produced it and its components. -/
structure PlaneImage where
  srcHash : Nat
  comps : ImageComponents
deriving DecidableEq, Repr

/-- Observable events of one `renderRoI` call: an image allocated in the
cache under a node's key (`allocateImagePlane`,
`getOrCreateFromCacheInternal`), or the effect's `render` action reached for
a node (`renderRoIInternal`). -/
inductive REvent where
  | store (hash : Nat)
  | render (hash : Nat)
deriving DecidableEq, Repr

/-- The hash an event mentions. -/
def REvent.hash : REvent → Nat
  | .store h => h
  | .render h => h

/-- The full result of a `renderRoI` call: status, output planes (the
`outputPlanes` out-parameter), events. -/
structure RenderResult where
  code : RenderRoIRetCode
  planes : List PlaneImage
  trace : List REvent
deriving DecidableEq, Repr

/-- Per-frame thread-local state (`ParallelRenderArgs`) and global app state
read by `renderRoI`. -/
structure FrameArgs where
  canAbort : Bool
  isRenderResponseToUserInteraction : Bool
  cacheAlmostFull : Bool
deriving DecidableEq, Repr

/-- The oracles of one effect instance. -/
structure NodeData where
  hash : Nat
  par : Rat
  supportsRenderScale : Bool
  useScaleOneImages : Bool
  supportsMultiResolution : Bool
  supportsTiles : Bool
  isWriter : Bool
  shouldCacheOutput : Bool
  getRoD : Rat → Int → Option RectD
  identityAns : Rat → RectD → IdentityAns
  outputComponents : ImageComponents
  outputDepth : BitDepth
  supportedComponent : ImageComponents → Bool
  cacheLookup : ImageComponents → Option CachedPlane
  cacheLookup2 : ImageComponents → Option CachedPlane
  restToRender : RectI → List RectI
  isBeingRenderedElsewhere : Bool
  renderInputs : RectI → RenderRoIRetCode
  internalRenderFails : Bool
  abortedFlag : Bool

mutual
/-- An effect node: its oracles, its ordered input slots, and its
components-available map (`getComponentsAvailable`), each entry naming the
node that can produce the plane. -/
inductive NodeTree where
  | mk (d : NodeData) (inputs : List (Option NodeTree))
      (avail : List (ImageComponents × PlaneSrc))

/-- The producer of an available plane: this node itself or an upstream
node. -/
inductive PlaneSrc where
  | self
  | other (n : NodeTree)
end

/-- The node's oracle record. -/
def NodeTree.data : NodeTree → NodeData
  | .mk d _ _ => d

/-- The node's input slots. -/
def NodeTree.inputs : NodeTree → List (Option NodeTree)
  | .mk _ i _ => i

/-- The node's components-available map. -/
def NodeTree.avail : NodeTree → List (ImageComponents × PlaneSrc)
  | .mk _ _ a => a

/-- `EffectInstance::getInput(n)`: negative or out-of-range indices give no
input (Node::getInput bounds-checks; identity to itself is tagged -2 and
must yield no input at line 2152). -/
def NodeTree.getInput (n : NodeTree) (i : Int) : Option NodeTree :=
  if i < 0 then none
  else (n.inputs.getD i.toNat none)

mutual
/-- All node hashes appearing in a tree (used to delimit which keys a
subtree's evaluation can touch). -/
def NodeTree.hashes : NodeTree → List Nat
  | .mk d inputs avail => d.hash :: (inputsHashes inputs ++ availHashes avail)

/-- Hashes of a list of optional input nodes. -/
def inputsHashes : List (Option NodeTree) → List Nat
  | [] => []
  | none :: rest => inputsHashes rest
  | some t :: rest => t.hashes ++ inputsHashes rest

/-- Hashes reachable through a components-available map. -/
def availHashes : List (ImageComponents × PlaneSrc) → List Nat
  | [] => []
  | (_, .self) :: rest => availHashes rest
  | (_, .other n) :: rest => n.hashes ++ availHashes rest
end

/-- Lines 2060-2084: the RoD stage of `renderRoI`.  The pre-computed RoD is
used when set; else `getRegionOfDefinition_public` is queried, and a failure
or a null RoD short-circuit the whole call (with status OK). -/
def renderRoIRoD (node : NodeTree) (args : RenderRoIArgs) : Option RectD :=
  if args.preComputedRoD.isNull = false then some args.preComputedRoD
  else
    match node.data.getRoD args.time args.view with
    | none => none
    | some rod => if rod.isNull = true then none else some rod

/-- Lines 2191-2203: search the components-available map for a requested
plane — the first entry with the same components, or, for a color-plane
request, the first color-plane entry whose components the node supports. -/
def findAvailableComp (supported : ImageComponents → Bool) (c : ImageComponents) :
    List (ImageComponents × PlaneSrc) → Option PlaneSrc
  | [] => none
  | (c2, src) :: rest =>
    if c2 = c then some src
    else if c.isColorPlane = true ∧ c2.isColorPlane = true ∧ supported c2 = true then some src
    else findAvailableComp supported c rest

/-- Insertion into the upstream-fetch map: a plane already present keeps its
first producer (`std::map::insert`). -/
def insertFetch (l : List (ImageComponents × NodeTree)) (c : ImageComponents)
    (n : NodeTree) : List (ImageComponents × NodeTree) :=
  if l.any (fun p => p.1 = c) then l else l ++ [(c, n)]

/-- Lines 2185-2215: split the requested planes into those this node
produces (`requestedComponents`) and those to fetch from an upstream
producer (`componentsToFetchUpstream`); a plane no producer offers is
dropped (it will read black and transparent). -/
def partitionPlanesGo (avail : List (ImageComponents × PlaneSrc))
    (supported : ImageComponents → Bool) :
    List ImageComponents → List ImageComponents → List (ImageComponents × NodeTree) →
    List ImageComponents × List (ImageComponents × NodeTree)
  | [], req, fetch => (req, fetch)
  | c :: rest, req, fetch =>
    match findAvailableComp supported c avail with
    | none => partitionPlanesGo avail supported rest req fetch
    | some PlaneSrc.self => partitionPlanesGo avail supported rest (req ++ [c]) fetch
    | some (PlaneSrc.other n) =>
        partitionPlanesGo avail supported rest req (insertFetch fetch c n)

/-- Lines 2218-2232: walk the upstream fetch results in order.  An aborted
or failed upstream call — or an upstream call that comes back with no
planes — ends the walk, returning the upstream status code; planes fetched
before the stop stay in the output list. -/
def foldFetchResults :
    List (ImageComponents × RenderResult) →
    Option RenderRoIRetCode × List PlaneImage × List REvent
  | [] => (none, [], [])
  | (c, r) :: rest =>
    if r.code = RenderRoIRetCode.aborted ∨ r.code = RenderRoIRetCode.failed ∨
        r.planes = [] then
      (some r.code, [], r.trace)
    else
      match foldFetchResults rest with
      | (oc, ps, tr) => (oc, r.planes.headD ⟨0, c⟩ :: ps, r.trace ++ tr)

/-- Lines 2377-2455: the cache-lookup loop over the requested planes.
State: accumulated planes (each with its cached image if kept),
`attemptToLookupCache` (false after the first miss: a miss drops every
previously found plane so the render produces a consistent set), and the
`byPassCache` flag (a bypass drops any hit; a writer then clears the flag so
upstream lookups still use the cache). -/
def cacheLookupLoop (d : NodeData) :
    List ImageComponents → List (ImageComponents × Option CachedPlane) → Bool → Bool →
    List (ImageComponents × Option CachedPlane) × Bool
  | [], planes, attempt, _ => (planes, attempt)
  | c :: rest, planes, attempt, byPass =>
    let found0 := d.cacheLookup c
    let found1 := if byPass then none else found0
    let byPass2 := if byPass ∧ d.isWriter then false else byPass
    match found1 with
    | some img =>
        if attempt then
          cacheLookupLoop d rest (planes ++ [(c, some img)]) attempt byPass2
        else
          cacheLookupLoop d rest (planes ++ [(c, none)]) attempt byPass2
    | none =>
        if attempt then
          cacheLookupLoop d rest
            ((planes.map (fun p => (p.1, (none : Option CachedPlane)))) ++ [(c, none)])
            false byPass2
        else
          cacheLookupLoop d rest (planes ++ [(c, none)]) attempt byPass2

/-- Lines 2586-2628: the post-input-render cache re-lookup when the cache
was almost full.  Each plane must come back as exactly the image found
first; otherwise every plane is dropped and the loop stops. -/
def clearPlanesAssoc (l : List (ImageComponents × Option CachedPlane)) :
    List (ImageComponents × Option CachedPlane) :=
  l.map (fun p => (p.1, (none : Option CachedPlane)))

/-- Lines 2586-2628: the post-input-render cache re-lookup when the cache
was almost full.  Each plane must come back from the cache as exactly the
image originally found; otherwise every plane of the request is dropped and
the loop stops (`break` after clearing all planes). -/
def redoCacheLookupLoop (d : NodeData) :
    List (ImageComponents × Option CachedPlane) →
    List (ImageComponents × Option CachedPlane) → Bool →
    List (ImageComponents × Option CachedPlane)
  | [], acc, _ => acc
  | (c, orig) :: rest, acc, true =>
      (match d.cacheLookup2 c, orig with
       | some img2, some img1 =>
           if img2 = img1 then redoCacheLookupLoop d rest (acc ++ [(c, some img2)]) true
           else clearPlanesAssoc (acc ++ (c, orig) :: rest)
       | _, _ => clearPlanesAssoc (acc ++ (c, orig) :: rest))
  | p :: rest, acc, false => redoCacheLookupLoop d rest (acc ++ [p]) false

end Natron

namespace Natron

/-- Lines 2548-2584 and 2643-2679: render the input images for each
rectangle to render; the first non-OK status stops the loop. -/
def renderInputsLoop (d : NodeData) : List RectI → Option RenderRoIRetCode
  | [] => none
  | r :: rest =>
    let c := d.renderInputs r
    if c ≠ RenderRoIRetCode.ok then some c else renderInputsLoop d rest

/-- A placeholder components value for head lookups on lists that are
provably non-empty. -/
def dummyComps : ImageComponents := ⟨0, false, 0⟩

/-- `EffectInstance::renderRoI` (lines 1986-2886).  See the section comment
for the modelling conventions; the recursion is bounded by `fuel` and every
recursive call (identity to self at another time, identity to an input,
plane fetched from an upstream producer) spends one unit. -/
def renderRoI : Nat → FrameArgs → NodeTree → RenderRoIArgs → RenderResult
  | 0, _, _, _ => ⟨RenderRoIRetCode.failed, [], []⟩
  | fuel + 1, frame, node, args =>
    -- line 1990: do nothing if no components were requested
    if args.components = [] then ⟨RenderRoIRetCode.failed, [], []⟩
    else
      -- lines 2028-2053: render-scale handling
      let rfstd := !node.data.supportsRenderScale && args.mipMapLevel != 0
      let scaleOneUpstream :=
        rfstd && (node.data.useScaleOneImages || !node.data.supportsMultiResolution)
      -- lines 2060-2084: obtain the RoD; a failed or null RoD returns OK
      match renderRoIRoD node args with
      | none => ⟨RenderRoIRetCode.ok, [], []⟩
      | some rod =>
        -- lines 2090-2166: identity handling
        match node.data.identityAns args.time rod with
        | IdentityAns.exn => ⟨RenderRoIRetCode.failed, [], []⟩
        | IdentityAns.ident inputNb inputTime =>
          if inputNb = -1 then
            -- line 2114: identity but no inputs
            ⟨RenderRoIRetCode.failed, [], []⟩
          else if inputNb = -2 then
            if inputTime ≠ args.time then
              -- lines 2119-2125: identity of itself at another time;
              -- the pre-computed RoD is cleared before re-entering
              renderRoI fuel frame node
                { args with time := inputTime, preComputedRoD := RectD.zero }
            else
              -- line 2119 guard false: fall through to the common identity
              -- tail where getInput(-2) yields no input → failed (line 2163)
              ⟨RenderRoIRetCode.failed, [], []⟩
          else
            -- lines 2152-2163: recurse into the identity input at the
            -- identity time (the args copy keeps every other field)
            match node.getInput inputNb with
            | some inputNode =>
                renderRoI fuel frame inputNode { args with time := inputTime }
            | none => ⟨RenderRoIRetCode.failed, [], []⟩
        | IdentityAns.notIdent =>
          -- lines 2172-2215: split requested planes into produced and
          -- fetched-upstream
          let part := partitionPlanesGo node.avail node.data.supportedComponent
            args.components [] []
          let requestedComponents := part.1
          let fetchList := part.2
          -- lines 2218-2232: fetch the non-produced planes upstream
          let fold := foldFetchResults (fetchList.map
            (fun p => (p.1, renderRoI fuel frame p.2
                { args with components := [p.1] })))
          let passPlanes := fold.2.1
          let passTrace := fold.2.2
          match fold.1 with
          | some code => ⟨code, passPlanes, passTrace⟩
          | none =>
              -- lines 2235-2237: only pass-through planes → failed
              if requestedComponents = [] then
                ⟨RenderRoIRetCode.failed, passPlanes, passTrace⟩
              else
                -- lines 2266-2327: the RoI in the output image's coordinates
                let par := node.data.par
                let useImageAsOutput := rfstd && scaleOneUpstream
                let roi0 :=
                  if useImageAsOutput then
                    ((args.roi.toCanonical args.mipMapLevel par rod).toPixelEnclosing 0 par)
                  else args.roi
                let tilesSupported := node.data.supportsTiles
                let downscaledImageBounds := rod.toPixelEnclosing args.mipMapLevel par
                let upscaledImageBounds := rod.toPixelEnclosing 0 par
                let boundsForOutput :=
                  if useImageAsOutput then upscaledImageBounds else downscaledImageBounds
                match (if tilesSupported then roi0.intersect boundsForOutput
                       else some boundsForOutput) with
                | none =>
                    -- lines 2300, 2307: the RoI falls outside the image → OK
                    ⟨RenderRoIRetCode.ok, passPlanes, passTrace⟩
                | some roi1 =>
                  -- lines 2313-2317: shrink the allocated bounds to the RoI
                  let upscaledImageBounds2 :=
                    if tilesSupported then
                      (upscaledImageBounds.intersect roi1).getD upscaledImageBounds
                    else upscaledImageBounds
                  let downscaledImageBounds2 :=
                    if tilesSupported then
                      (downscaledImageBounds.intersect args.roi).getD downscaledImageBounds
                    else downscaledImageBounds
                  let boundsForOutput2 :=
                    if useImageAsOutput then upscaledImageBounds2 else downscaledImageBounds2
                  let createInCache := node.data.shouldCacheOutput
                  -- lines 2377-2455: cache lookup per requested plane
                  let planes0 := (cacheLookupLoop node.data requestedComponents [] true
                    args.byPassCache).1
                  let isPlaneCached := (planes0.headD (dummyComps, none)).2
                    -- lines 2480-2483: empty RoI and nothing cached → failed
                    if isPlaneCached = none ∧ args.roi.isNull = true then
                      ⟨RenderRoIRetCode.failed, passPlanes, passTrace⟩
                    else
                      -- lines 2485-2534: what is left to render
                      let trimap := !frame.canAbort &&
                        frame.isRenderResponseToUserInteraction
                      let restRects :=
                        match isPlaneCached with
                        | some _ => node.data.restToRender roi1
                        | none => []
                      let beingElsewhere :=
                        if isPlaneCached.isSome && trimap then
                          node.data.isBeingRenderedElsewhere
                        else false
                      let redo := isPlaneCached.isSome && !restRects.isEmpty &&
                        frame.cacheAlmostFull
                      let rects1 :=
                        match isPlaneCached with
                        | some cp =>
                          if restRects ≠ [] ∧ frame.cacheAlmostFull = true then [roi1]
                          else if tilesSupported = false ∧ restRects ≠ [] then [cp.bounds]
                          else restRects
                        | none => [if tilesSupported then roi1 else boundsForOutput2]
                      -- line 2537: fixed before any redo adjustments
                      let hasSomethingToRender := !rects1.isEmpty
                      -- lines 2548-2584: render the inputs for each rectangle
                      match renderInputsLoop node.data rects1 with
                      | some code => ⟨code, passPlanes, passTrace⟩
                      | none =>
                        -- lines 2586-2682: cache re-lookup after the drop
                        let planes2 :=
                          if redo then redoCacheLookupLoop node.data planes0 [] true
                          else planes0
                        let isPlaneCached2 :=
                          if redo then (planes2.headD (dummyComps, none)).2
                          else isPlaneCached
                        let rects2 :=
                          if redo && !isPlaneCached2.isSome then
                            [if tilesSupported then roi1 else boundsForOutput2]
                          else rects1
                        match (if redo && !isPlaneCached2.isSome then
                                renderInputsLoop node.data rects2
                               else none) with
                        | some code => ⟨code, passPlanes, passTrace⟩
                        | none =>
                          -- lines 2688-2727: allocate the uncached planes
                          -- (stored under this node's key when caching is on)
                          let storeEvents := planes2.filterMap
                            (fun p =>
                              if p.2 = none ∧ createInCache = true then
                                some (REvent.store node.data.hash)
                              else none)
                          -- lines 2738-2784: run the render on what is left
                          let renderEvents :=
                            if hasSomethingToRender then [REvent.render node.data.hash]
                            else []
                          let renderFailed := hasSomethingToRender &&
                            node.data.internalRenderFails
                          let renderAborted := node.data.abortedFlag
                          let trace := passTrace ++ storeEvents ++ renderEvents
                          -- lines 2786-2823: abort and failure propagation
                          -- (the C++ throws "Rendering Failed"; callers treat
                          -- the exception as a failure of the call)
                          if renderAborted &&
                              (hasSomethingToRender || (trimap && beingElsewhere)) then
                            ⟨RenderRoIRetCode.aborted, passPlanes, trace⟩
                          else if renderFailed then
                            ⟨RenderRoIRetCode.failed, passPlanes, trace⟩
                          else
                            -- lines 2843-2885: append the produced planes
                            ⟨RenderRoIRetCode.ok,
                             passPlanes ++ planes2.map
                               (fun p => PlaneImage.mk node.data.hash p.1),
                             trace⟩

end Natron

namespace Natron

theorem renderRoIRoD_none (node : NodeTree) (args : RenderRoIArgs)
    (hpre : args.preComputedRoD.isNull = true)
    (hrod : node.data.getRoD args.time args.view = none ∨
      ∃ r, node.data.getRoD args.time args.view = some r ∧ r.isNull = true) :
    renderRoIRoD node args = none := by
  unfold renderRoIRoD
  rw [hpre]
  simp only [Bool.true_eq_false, if_false]
  rcases hrod with h | ⟨r, hr, hnull⟩
  · rw [h]
  · rw [hr]
    simp [hnull]

/-- Claim C9: a `renderRoI` call without a pre-computed RoD whose
`getRegionOfDefinition` query fails, or yields a null rectangle, returns OK
with no planes appended and no work performed (lines 2060-2074: a failed RoD
may simply mean an empty output, e.g. an empty Roto node, so the render must
not fail). -/
theorem renderRoI_rodFailure_returns_ok (fuel : Nat) (frame : FrameArgs)
    (node : NodeTree) (args : RenderRoIArgs)
    (hc : args.components ≠ [])
    (hpre : args.preComputedRoD.isNull = true)
    (hrod : node.data.getRoD args.time args.view = none ∨
      ∃ r, node.data.getRoD args.time args.view = some r ∧ r.isNull = true) :
    renderRoI (fuel + 1) frame node args = ⟨RenderRoIRetCode.ok, [], []⟩ := by
  have hnone := renderRoIRoD_none node args hpre hrod
  simp only [renderRoI]
  rw [if_neg hc, hnone]

/-- Witness for claim C9's theorem: a node whose RoD query fails returns OK
with no planes. -/
theorem renderRoI_rodFailure_returns_ok_witness :
    renderRoI 1 ⟨true, false, false⟩
      (NodeTree.mk
        ⟨1, 1, true, false, true, true, false, true,
         fun _ _ => none,
         fun _ _ => IdentityAns.notIdent,
         ⟨0, true, 4⟩, BitDepth.float,
         fun _ => true, fun _ => none, fun _ => none, fun r => [r], false,
         fun _ => RenderRoIRetCode.ok, false, false⟩
        [] [(⟨0, true, 4⟩, PlaneSrc.self)])
      ⟨0, 0, 0, ⟨0, 0, 100, 100⟩, [⟨0, true, 4⟩], BitDepth.float, false,
       ⟨0, 0, 0, 0⟩, 3⟩ = ⟨RenderRoIRetCode.ok, [], []⟩ :=
  renderRoI_rodFailure_returns_ok 0 ⟨true, false, false⟩ _ _
    (by decide) (by decide) (Or.inl rfl)

/-- Claim C5: identity-to-self handling (lines 2116-2127 and 2152-2163).  A
node declaring identity to itself (input tag -2) at a time different from
the requested one re-enters `renderRoI` with the time replaced (and the
pre-computed RoD cleared); when the declared time equals the requested time
the release-mode guard falls through to `getInput(-2)`, which yields no
input, so the call returns failed instead of recursing forever. -/
theorem renderRoI_identitySelf (fuel : Nat) (frame : FrameArgs)
    (node : NodeTree) (args : RenderRoIArgs) (rod : RectD) (t2 : Rat)
    (hc : args.components ≠ [])
    (hrod : renderRoIRoD node args = some rod)
    (hident : node.data.identityAns args.time rod = IdentityAns.ident (-2) t2) :
    (t2 ≠ args.time →
      renderRoI (fuel + 1) frame node args =
        renderRoI fuel frame node
          { args with time := t2, preComputedRoD := RectD.zero }) ∧
    (t2 = args.time →
      renderRoI (fuel + 1) frame node args = ⟨RenderRoIRetCode.failed, [], []⟩) := by
  constructor
  · intro hne
    simp only [renderRoI]
    rw [if_neg hc, hrod]
    dsimp only
    rw [hident]
    simp [hne]
  · intro heq
    simp only [renderRoI]
    rw [if_neg hc, hrod]
    dsimp only
    rw [hident]
    simp [heq]

/-- A concrete identity-to-self node used as a witness fixture: it declares
identity to itself (tag -2) at time 7, and its RoD query fails. -/
def idSelfNode : NodeTree :=
  NodeTree.mk
    ⟨1, 1, true, false, true, true, false, true,
     fun _ _ => none,
     fun _ _ => IdentityAns.ident (-2) 7,
     ⟨0, true, 4⟩, BitDepth.float,
     fun _ => true, fun _ => none, fun _ => none, fun r => [r], false,
     fun _ => RenderRoIRetCode.ok, false, false⟩
    [] [(⟨0, true, 4⟩, PlaneSrc.self)]

/-- A concrete frame-args fixture. -/
def wFrame : FrameArgs := ⟨true, false, false⟩

/-- A concrete render-args fixture at a given time and pre-computed RoD. -/
def wArgs (t : Rat) (pre : RectD) : RenderRoIArgs :=
  ⟨t, 0, 0, ⟨0, 0, 100, 100⟩, [⟨0, true, 4⟩], BitDepth.float, false, pre, 3⟩

/-- Witness for claim C5's theorem: the identity-to-self node requested at
time 0 (different from its declared identity time 7) re-enters at time 7
with the pre-computed RoD cleared; requested at time 7 (equal) it returns
failed. -/
theorem renderRoI_identitySelf_witness :
    (renderRoI 1 wFrame idSelfNode (wArgs 0 ⟨0, 0, 9, 9⟩) =
      renderRoI 0 wFrame idSelfNode
        { (wArgs 0 ⟨0, 0, 9, 9⟩) with time := 7, preComputedRoD := RectD.zero }) ∧
    (renderRoI 1 wFrame idSelfNode (wArgs 7 ⟨0, 0, 9, 9⟩) =
      ⟨RenderRoIRetCode.failed, [], []⟩) := by
  constructor
  · exact (renderRoI_identitySelf 0 wFrame idSelfNode (wArgs 0 ⟨0, 0, 9, 9⟩)
      ⟨0, 0, 9, 9⟩ 7 (by decide) (by decide) rfl).1 (by decide)
  · exact (renderRoI_identitySelf 0 wFrame idSelfNode (wArgs 7 ⟨0, 0, 9, 9⟩)
      ⟨0, 0, 9, 9⟩ 7 (by decide) (by decide) rfl).2 rfl

end Natron

namespace Natron

theorem hash_mem_hashes (node : NodeTree) : node.data.hash ∈ node.hashes := by
  cases node with
  | mk d i a => simp [NodeTree.hashes, NodeTree.data]

theorem availHashes_sub (avail : List (ImageComponents × PlaneSrc)) (c2 : ImageComponents)
    (n : NodeTree) (hmem : (c2, PlaneSrc.other n) ∈ avail) :
    ∀ h ∈ n.hashes, h ∈ availHashes avail := by
  induction avail with
  | nil => simp at hmem
  | cons p rest ih =>
      intro h hh
      rcases List.mem_cons.1 hmem with heq | hmem2
      · rw [← heq]
        simp only [availHashes, List.mem_append]
        exact Or.inl hh
      · cases p with
        | mk c src =>
            cases src with
            | self => simpa [availHashes] using ih hmem2 h hh
            | other m =>
                simp only [availHashes, List.mem_append]
                exact Or.inr (ih hmem2 h hh)

theorem inputsHashes_sub (inputs : List (Option NodeTree)) (t : NodeTree)
    (hmem : some t ∈ inputs) : ∀ h ∈ t.hashes, h ∈ inputsHashes inputs := by
  induction inputs with
  | nil => simp at hmem
  | cons o rest ih =>
      intro h hh
      rcases List.mem_cons.1 hmem with heq | hmem2
      · rw [← heq]
        simp only [inputsHashes, List.mem_append]
        exact Or.inl hh
      · cases o with
        | none => simpa [inputsHashes] using ih hmem2 h hh
        | some m =>
            simp only [inputsHashes, List.mem_append]
            exact Or.inr (ih hmem2 h hh)

theorem getInput_hashes (node : NodeTree) (i : Int) (inp : NodeTree)
    (hinp : node.getInput i = some inp) : ∀ h ∈ inp.hashes, h ∈ node.hashes := by
  unfold NodeTree.getInput at hinp
  by_cases hi : i < 0
  · simp [hi] at hinp
  · rw [if_neg hi] at hinp
    have hmem : some inp ∈ node.inputs := by
      have hgd : node.inputs.getD i.toNat none = some inp := hinp
      rw [List.getD_eq_getElem?_getD] at hgd
      cases hget : node.inputs[i.toNat]? with
      | none => rw [hget] at hgd; simp at hgd
      | some v =>
          rw [hget] at hgd
          simp only [Option.getD_some] at hgd
          rw [hgd] at hget
          exact List.getElem?_mem hget
    intro h hh
    cases node with
    | mk d inputs avail =>
        simp only [NodeTree.hashes, List.mem_cons, List.mem_append]
        exact Or.inr (Or.inl (inputsHashes_sub inputs inp hmem h hh))

theorem findAvailableComp_other (supported : ImageComponents → Bool)
    (c : ImageComponents) (avail : List (ImageComponents × PlaneSrc)) (n : NodeTree)
    (hfind : findAvailableComp supported c avail = some (PlaneSrc.other n)) :
    ∃ c2, (c2, PlaneSrc.other n) ∈ avail := by
  induction avail with
  | nil => simp [findAvailableComp] at hfind
  | cons p rest ih =>
      cases p with
      | mk c2 src =>
          unfold findAvailableComp at hfind
          by_cases h1 : c2 = c
          · rw [if_pos h1] at hfind
            injection hfind with hfind
            exact ⟨c2, by rw [hfind]; exact List.mem_cons_self _ _⟩
          · rw [if_neg h1] at hfind
            by_cases h2 : c.isColorPlane = true ∧ c2.isColorPlane = true ∧ supported c2 = true
            · rw [if_pos h2] at hfind
              injection hfind with hfind
              exact ⟨c2, by rw [hfind]; exact List.mem_cons_self _ _⟩
            · rw [if_neg h2] at hfind
              obtain ⟨c3, hc3⟩ := ih hfind
              exact ⟨c3, List.mem_cons_of_mem _ hc3⟩

theorem insertFetch_mem (l : List (ImageComponents × NodeTree)) (c : ImageComponents)
    (n : NodeTree) (p : ImageComponents × NodeTree) (hmem : p ∈ insertFetch l c n) :
    p ∈ l ∨ p = (c, n) := by
  unfold insertFetch at hmem
  by_cases h : l.any (fun q => q.1 = c) = true
  · rw [if_pos h] at hmem
    exact Or.inl hmem
  · rw [if_neg h] at hmem
    rcases List.mem_append.1 hmem with h2 | h2
    · exact Or.inl h2
    · simp only [List.mem_singleton] at h2
      exact Or.inr h2

theorem partitionPlanesGo_fetch_mem (avail : List (ImageComponents × PlaneSrc))
    (supported : ImageComponents → Bool) :
    ∀ (comps : List ImageComponents) (req : List ImageComponents)
      (fetch : List (ImageComponents × NodeTree)) (p : ImageComponents × NodeTree),
      p ∈ (partitionPlanesGo avail supported comps req fetch).2 →
      p ∈ fetch ∨ ∃ c2, (c2, PlaneSrc.other p.2) ∈ avail := by
  intro comps
  induction comps with
  | nil =>
      intro req fetch p hmem
      exact Or.inl hmem
  | cons c rest ih =>
      intro req fetch p hmem
      unfold partitionPlanesGo at hmem
      cases hfind : findAvailableComp supported c avail with
      | none =>
          rw [hfind] at hmem
          exact ih req fetch p hmem
      | some src =>
          rw [hfind] at hmem
          cases src with
          | self => exact ih (req ++ [c]) fetch p hmem
          | other n =>
              rcases ih req (insertFetch fetch c n) p hmem with h2 | h2
              · rcases insertFetch_mem fetch c n p h2 with h3 | h3
                · exact Or.inl h3
                · obtain ⟨c2, hc2⟩ := findAvailableComp_other supported c avail n hfind
                  rw [h3]
                  exact Or.inr ⟨c2, hc2⟩
              · exact Or.inr h2

theorem foldFetchResults_trace_mem (l : List (ImageComponents × RenderResult))
    (e : REvent) (hmem : e ∈ (foldFetchResults l).2.2) :
    ∃ p ∈ l, e ∈ p.2.trace := by
  induction l with
  | nil => simp [foldFetchResults] at hmem
  | cons q rest ih =>
      cases q with
      | mk c r =>
          unfold foldFetchResults at hmem
          by_cases hcond : r.code = RenderRoIRetCode.aborted ∨
              r.code = RenderRoIRetCode.failed ∨ r.planes = []
          · rw [if_pos hcond] at hmem
            exact ⟨(c, r), List.mem_cons_self _ _, hmem⟩
          · rw [if_neg hcond] at hmem
            cases hfold : foldFetchResults rest with
            | mk oc pr =>
                cases pr with
                | mk ps tr =>
                    rw [hfold] at hmem
                    simp only [List.mem_append] at hmem
                    rcases hmem with h2 | h2
                    · exact ⟨(c, r), List.mem_cons_self _ _, h2⟩
                    · obtain ⟨p, hp, hpe⟩ := ih (by rw [hfold]; exact h2)
                      exact ⟨p, List.mem_cons_of_mem _ hp, hpe⟩

end Natron

namespace Natron

theorem storeEvents_mem (planes2 : List (ImageComponents × Option CachedPlane))
    (cic : Bool) (h : Nat) (e : REvent)
    (hmem : e ∈ planes2.filterMap
      (fun p => if p.2 = none ∧ cic = true then some (REvent.store h) else none)) :
    e = REvent.store h := by
  rw [List.mem_filterMap] at hmem
  obtain ⟨a, _, ha⟩ := hmem
  by_cases hcond : a.2 = none ∧ cic = true
  · rw [if_pos hcond] at ha
    injection ha with ha
    exact ha.symm
  · rw [if_neg hcond] at ha
    exact absurd ha (by simp)

theorem mem_ite_nil_singleton {c : Prop} [Decidable c] {e x : REvent}
    (h : e ∈ (if c then [x] else [])) : e = x := by
  by_cases hc : c
  · rw [if_pos hc] at h
    exact List.mem_singleton.1 h
  · rw [if_neg hc] at h
    exact absurd h (List.not_mem_nil e)

set_option maxHeartbeats 2000000 in
theorem renderRoI_trace_hashes :
    ∀ (fuel : Nat) (frame : FrameArgs) (node : NodeTree) (args : RenderRoIArgs)
      (e : REvent), e ∈ (renderRoI fuel frame node args).trace → e.hash ∈ node.hashes := by
  intro fuel
  induction fuel with
  | zero =>
      intro frame node args e he
      simp [renderRoI] at he
  | succ fuel ih =>
      intro frame node args e he
      simp only [renderRoI] at he
      by_cases hc : args.components = []
      · rw [if_pos hc] at he
        simp at he
      · rw [if_neg hc] at he
        cases hrod : renderRoIRoD node args with
        | none =>
            rw [hrod] at he
            simp at he
        | some rod =>
            rw [hrod] at he
            dsimp only at he
            cases hident : node.data.identityAns args.time rod with
            | exn =>
                rw [hident] at he
                simp at he
            | ident inputNb inputTime =>
                rw [hident] at he
                dsimp only at he
                by_cases h1 : inputNb = -1
                · rw [if_pos h1] at he; simp at he
                · rw [if_neg h1] at he
                  by_cases h2 : inputNb = -2
                  · rw [if_pos h2] at he
                    by_cases h3 : inputTime ≠ args.time
                    · rw [if_pos h3] at he
                      exact ih frame node _ e he
                    · rw [if_neg h3] at he; simp at he
                  · rw [if_neg h2] at he
                    cases hinp : node.getInput inputNb with
                    | none => rw [hinp] at he; simp at he
                    | some inputNode =>
                        rw [hinp] at he
                        dsimp only at he
                        exact getInput_hashes node inputNb inputNode hinp e.hash
                          (ih frame inputNode _ e he)
            | notIdent =>
                rw [hident] at he
                dsimp only at he
                cases hpart : partitionPlanesGo node.avail node.data.supportedComponent
                    args.components [] [] with
                | mk req fetch =>
                  rw [hpart] at he
                  dsimp only at he
                  -- every event of the pass-through fetches lies in an
                  -- upstream producer's subtree
                  have hpass : ∀ e2 ∈ (foldFetchResults (fetch.map
                      (fun p => (p.1, renderRoI fuel frame p.2
                        { args with components := [p.1] })))).2.2,
                      REvent.hash e2 ∈ node.hashes := by
                    intro e2 he2
                    obtain ⟨p, hp, hpe⟩ := foldFetchResults_trace_mem _ e2 he2
                    rw [List.mem_map] at hp
                    obtain ⟨q, hq, hqp⟩ := hp
                    have hqhash : e2.hash ∈ q.2.hashes := by
                      apply ih frame q.2 { args with components := [q.1] } e2
                      rw [← hqp] at hpe
                      exact hpe
                    have hqfetch : q ∈ (partitionPlanesGo node.avail
                        node.data.supportedComponent args.components [] []).2 := by
                      rw [hpart]
                      exact hq
                    rcases partitionPlanesGo_fetch_mem node.avail
                        node.data.supportedComponent args.components [] [] q hqfetch with
                      habs | ⟨c2, hc2⟩
                    · simp at habs
                    · cases node with
                      | mk d inputs avail =>
                          simp only [NodeTree.hashes, List.mem_cons, List.mem_append]
                          exact Or.inr (Or.inr (availHashes_sub avail c2 q.2 hc2 e2.hash hqhash))
                  cases hfold : foldFetchResults (fetch.map
                      (fun p => (p.1, renderRoI fuel frame p.2
                        { args with components := [p.1] }))) with
                  | mk oc pr =>
                    cases pr with
                    | mk passPlanes passTrace =>
                      rw [hfold] at he
                      dsimp only at he
                      have hpassTr : ∀ e2 ∈ passTrace, REvent.hash e2 ∈ node.hashes := by
                        intro e2 he2
                        apply hpass
                        rw [hfold]
                        exact he2
                      cases oc with
                      | some code =>
                          dsimp only at he
                          exact hpassTr e he
                      | none =>
                          dsimp only at he
                          by_cases hreq : req = []
                          · rw [if_pos hreq] at he
                            exact hpassTr e he
                          · rw [if_neg hreq] at he
                            -- the remaining branches return passTrace alone or
                            -- passTrace ++ storeEvents ++ renderEvents
                            split at he
                            · exact hpassTr e he
                            · split at he
                              · exact hpassTr e he
                              · split at he
                                · exact hpassTr e he
                                · split at he
                                  · exact hpassTr e he
                                  · simp only [apply_ite RenderResult.trace, ite_self,
                                      List.append_assoc, List.mem_append] at he
                                    rcases he with he | he | he
                                    · exact hpassTr e he
                                    · rw [storeEvents_mem _ _ _ e he]
                                      exact hash_mem_hashes node
                                    · rw [mem_ite_nil_singleton he]
                                      exact hash_mem_hashes node

end Natron

namespace Natron

/-- Claim C1: a node that declares identity to input `i` (with `i ≥ 0`) at
time `t2` delegates entirely: `renderRoI` returns exactly the result of
calling `renderRoI` on input `i` with the time set to `t2` (lines
2152-2159), and — because every cache-store and render event of that
delegated call stays within the input's subtree — the node's own `render`
action is never invoked and no image is stored under the node's own key
(the key is tagged with the node's hash, assumed distinct from every hash in
the input's subtree). -/
theorem renderRoI_identityInput (fuel : Nat) (frame : FrameArgs) (node : NodeTree)
    (args : RenderRoIArgs) (rod : RectD) (i : Int) (t2 : Rat) (inputNode : NodeTree)
    (hc : args.components ≠ [])
    (hrod : renderRoIRoD node args = some rod)
    (hident : node.data.identityAns args.time rod = IdentityAns.ident i t2)
    (hi : 0 ≤ i)
    (hinp : node.getInput i = some inputNode)
    (hhash : node.data.hash ∉ inputNode.hashes) :
    renderRoI (fuel + 1) frame node args =
      renderRoI fuel frame inputNode { args with time := t2 } ∧
    REvent.render node.data.hash ∉ (renderRoI (fuel + 1) frame node args).trace ∧
    REvent.store node.data.hash ∉ (renderRoI (fuel + 1) frame node args).trace := by
  have h1 : i ≠ -1 := by intro h; rw [h] at hi; norm_num at hi
  have h2 : i ≠ -2 := by intro h; rw [h] at hi; norm_num at hi
  have hmain : renderRoI (fuel + 1) frame node args =
      renderRoI fuel frame inputNode { args with time := t2 } := by
    simp only [renderRoI]
    rw [if_neg hc, hrod]
    dsimp only
    rw [hident]
    dsimp only
    rw [if_neg h1, if_neg h2, hinp]
  refine ⟨hmain, ?_, ?_⟩
  · rw [hmain]
    intro hmem
    have := renderRoI_trace_hashes fuel frame inputNode
      { args with time := t2 } (REvent.render node.data.hash) hmem
    exact hhash this
  · rw [hmain]
    intro hmem
    have := renderRoI_trace_hashes fuel frame inputNode
      { args with time := t2 } (REvent.store node.data.hash) hmem
    exact hhash this

/-- A concrete two-node fixture for claim C1: the parent (hash 1) declares
identity to its input 0 at time 3; the input (hash 2) answers every query
trivially. -/
def idInputChild : NodeTree :=
  NodeTree.mk
    ⟨2, 1, true, false, true, true, false, true,
     fun _ _ => none,
     fun _ _ => IdentityAns.notIdent,
     ⟨0, true, 4⟩, BitDepth.float,
     fun _ => true, fun _ => none, fun _ => none, fun r => [r], false,
     fun _ => RenderRoIRetCode.ok, false, false⟩
    [] [(⟨0, true, 4⟩, PlaneSrc.self)]

/-- The parent node of the claim C1 fixture. -/
def idInputParent : NodeTree :=
  NodeTree.mk
    ⟨1, 1, true, false, true, true, false, true,
     fun _ _ => none,
     fun _ _ => IdentityAns.ident 0 3,
     ⟨0, true, 4⟩, BitDepth.float,
     fun _ => true, fun _ => none, fun _ => none, fun r => [r], false,
     fun _ => RenderRoIRetCode.ok, false, false⟩
    [some idInputChild] [(⟨0, true, 4⟩, PlaneSrc.self)]

/-- Witness for claim C1's theorem at the two-node fixture: the parent's
call equals the input's call at time 3, and no render or store event of the
parent's hash appears in the trace. -/
theorem renderRoI_identityInput_witness :
    renderRoI 1 wFrame idInputParent (wArgs 0 ⟨0, 0, 9, 9⟩) =
      renderRoI 0 wFrame idInputChild { (wArgs 0 ⟨0, 0, 9, 9⟩) with time := 3 } ∧
    REvent.render 1 ∉ (renderRoI 1 wFrame idInputParent (wArgs 0 ⟨0, 0, 9, 9⟩)).trace ∧
    REvent.store 1 ∉ (renderRoI 1 wFrame idInputParent (wArgs 0 ⟨0, 0, 9, 9⟩)).trace := by
  have h := renderRoI_identityInput 0 wFrame idInputParent (wArgs 0 ⟨0, 0, 9, 9⟩)
    ⟨0, 0, 9, 9⟩ 0 3 idInputChild
    (by decide) (by decide) rfl (by norm_num)
    rfl
    (by
      show (1 : Nat) ∉ idInputChild.hashes
      simp [idInputChild, NodeTree.hashes, inputsHashes, availHashes])
  exact h

end Natron

namespace Natron

theorem foldFetchResults_all_ok (l : List (ImageComponents × RenderResult))
    (hok : ∀ p ∈ l, p.2.code = RenderRoIRetCode.ok ∧ p.2.planes ≠ []) :
    (foldFetchResults l).1 = none ∧
    (foldFetchResults l).2.1 = l.map (fun p => p.2.planes.headD ⟨0, p.1⟩) := by
  induction l with
  | nil => exact ⟨rfl, rfl⟩
  | cons q rest ih =>
      obtain ⟨hcode, hplanes⟩ := hok q (List.mem_cons_self _ _)
      have hnot : ¬(q.2.code = RenderRoIRetCode.aborted ∨
          q.2.code = RenderRoIRetCode.failed ∨ q.2.planes = []) := by
        rw [hcode]
        simp [hplanes]
      have ihr := ih (fun p hp => hok p (List.mem_cons_of_mem _ hp))
      cases q with
      | mk c r =>
          constructor
          · show (foldFetchResults ((c, r) :: rest)).1 = none
            unfold foldFetchResults
            rw [if_neg hnot]
            cases hrest : foldFetchResults rest with
            | mk oc pr =>
                rw [hrest] at ihr
                exact ihr.1
          · show (foldFetchResults ((c, r) :: rest)).2.1 = _
            unfold foldFetchResults
            rw [if_neg hnot]
            cases hrest : foldFetchResults rest with
            | mk oc pr =>
                rw [hrest] at ihr
                cases pr with
                | mk ps tr =>
                    simp only [List.map_cons]
                    rw [← ihr.2]

/-- Claim C10: when every requested plane resolves by pass-through to an
upstream producer (this node produces none of them), `renderRoI` returns
failed (line 2236) even though all upstream fetches succeeded and their
planes were already appended to the output list (line 2230): the result's
planes are exactly the upstream planes. -/
theorem renderRoI_passthroughOnly_failed (fuel : Nat) (frame : FrameArgs)
    (node : NodeTree) (args : RenderRoIArgs) (rod : RectD)
    (fetch : List (ImageComponents × NodeTree))
    (hc : args.components ≠ [])
    (hrod : renderRoIRoD node args = some rod)
    (hident : node.data.identityAns args.time rod = IdentityAns.notIdent)
    (hpart : partitionPlanesGo node.avail node.data.supportedComponent
      args.components [] [] = ([], fetch))
    (hok : ∀ p ∈ fetch,
      (renderRoI fuel frame p.2 { args with components := [p.1] }).code =
        RenderRoIRetCode.ok ∧
      (renderRoI fuel frame p.2 { args with components := [p.1] }).planes ≠ []) :
    (renderRoI (fuel + 1) frame node args).code = RenderRoIRetCode.failed ∧
    (renderRoI (fuel + 1) frame node args).planes =
      fetch.map (fun p =>
        (renderRoI fuel frame p.2 { args with components := [p.1] }).planes.headD
          ⟨0, p.1⟩) := by
  have hfold := foldFetchResults_all_ok
    (fetch.map (fun p => (p.1, renderRoI fuel frame p.2
      { args with components := [p.1] })))
    (by
      intro p hp
      rw [List.mem_map] at hp
      obtain ⟨q, hq, hqp⟩ := hp
      rw [← hqp]
      exact hok q hq)
  simp only [renderRoI]
  rw [if_neg hc, hrod]
  dsimp only
  rw [hident]
  dsimp only
  rw [hpart]
  dsimp only
  obtain ⟨h1, h2⟩ := hfold
  rw [h1]
  dsimp only
  constructor
  · rfl
  · rw [h2, List.map_map]
    rfl

/-- The upstream producer of the claim C10 fixture (hash 2): it produces
the color plane itself and renders it successfully. -/
def passChild : NodeTree :=
  NodeTree.mk
    ⟨2, 1, true, false, true, false, false, true,
     fun _ _ => some ⟨0, 0, 50, 50⟩,
     fun _ _ => IdentityAns.notIdent,
     ⟨0, true, 4⟩, BitDepth.float,
     fun _ => true, fun _ => none, fun _ => none, fun r => [r], false,
     fun _ => RenderRoIRetCode.ok, false, false⟩
    [] [(⟨0, true, 4⟩, PlaneSrc.self)]

/-- The claim C10 fixture parent (hash 1): the only requested plane is
available, but only from the upstream producer. -/
def passParent : NodeTree :=
  NodeTree.mk
    ⟨1, 1, true, false, true, true, false, true,
     fun _ _ => some ⟨0, 0, 50, 50⟩,
     fun _ _ => IdentityAns.notIdent,
     ⟨0, true, 4⟩, BitDepth.float,
     fun _ => true, fun _ => none, fun _ => none, fun r => [r], false,
     fun _ => RenderRoIRetCode.ok, false, false⟩
    [some passChild] [(⟨0, true, 4⟩, PlaneSrc.other passChild)]

/-- Witness for claim C10's theorem: the parent's call returns failed while
its planes list holds the plane successfully produced upstream (hash 2). -/
theorem renderRoI_passthroughOnly_failed_witness :
    (renderRoI 2 wFrame passParent (wArgs 0 RectD.zero)).code =
      RenderRoIRetCode.failed ∧
    (renderRoI 2 wFrame passParent (wArgs 0 RectD.zero)).planes =
      [⟨2, ⟨0, true, 4⟩⟩] := by
  have h := renderRoI_passthroughOnly_failed 1 wFrame passParent
    (wArgs 0 RectD.zero) ⟨0, 0, 50, 50⟩ [(⟨0, true, 4⟩, passChild)]
    (by decide) (by decide) rfl rfl
    (by
      intro p hp
      simp only [List.mem_singleton] at hp
      rw [hp]
      exact ⟨by decide, by decide⟩)
  refine ⟨h.1, ?_⟩
  rw [h.2]
  decide

end Natron

namespace Natron

theorem intersect_null_left (a b : RectI) (h : a.isNull = true) :
    a.intersect b = none := by
  unfold RectI.intersect
  rw [h]
  simp

theorem emptyRoI_pixel_null (roi : RectI) (mip : Nat) (par : Rat) (rod : RectD)
    (hroi : roi.isNull = true) (hpar : 0 < par) :
    ((roi.toCanonical mip par rod).toPixelEnclosing 0 par).isNull = true := by
  have hparne : par ≠ 0 := ne_of_gt hpar
  simp only [RectI.isNull, Bool.or_eq_true, decide_eq_true_eq] at hroi
  have hnull : (roi.toCanonicalNoClipping mip par).isNull = true := by
    simp only [RectD.isNull, RectI.toCanonicalNoClipping, Bool.or_eq_true,
      decide_eq_true_eq]
    rcases hroi with h | h
    · left
      have h2 : (roi.x2 : ℚ) ≤ (roi.x1 : ℚ) := by exact_mod_cast h
      have hpow : (0:ℚ) ≤ par * 2 ^ mip := by positivity
      calc (roi.x2 : ℚ) * par * 2 ^ mip = (roi.x2 : ℚ) * (par * 2 ^ mip) := by ring
        _ ≤ (roi.x1 : ℚ) * (par * 2 ^ mip) := mul_le_mul_of_nonneg_right h2 hpow
        _ = (roi.x1 : ℚ) * par * 2 ^ mip := by ring
    · right
      have h2 : (roi.y2 : ℚ) ≤ (roi.y1 : ℚ) := by exact_mod_cast h
      have hpow : (0:ℚ) ≤ (2:ℚ) ^ mip := by positivity
      exact mul_le_mul_of_nonneg_right h2 hpow
  have hint : (roi.toCanonicalNoClipping mip par).intersect rod = none := by
    unfold RectD.intersect
    rw [hnull]
    simp
  unfold RectI.toCanonical
  dsimp only
  rw [hint]
  simp only [Option.getD_none]
  unfold RectD.toPixelEnclosing RectI.toCanonicalNoClipping scaleFromMipMapLevel
  have hx1 : (roi.x1 : ℚ) * par * 2 ^ mip / par * (1 / (2:ℚ) ^ (0:ℕ)) =
      ((roi.x1 * 2 ^ mip : ℤ) : ℚ) := by
    push_cast
    field_simp
    ring
  have hx2 : (roi.x2 : ℚ) * par * 2 ^ mip / par * (1 / (2:ℚ) ^ (0:ℕ)) =
      ((roi.x2 * 2 ^ mip : ℤ) : ℚ) := by
    push_cast
    field_simp
    ring
  have hy1 : (roi.y1 : ℚ) * 2 ^ mip * (1 / (2:ℚ) ^ (0:ℕ)) =
      ((roi.y1 * 2 ^ mip : ℤ) : ℚ) := by
    push_cast
    field_simp
  have hy2 : (roi.y2 : ℚ) * 2 ^ mip * (1 / (2:ℚ) ^ (0:ℕ)) =
      ((roi.y2 * 2 ^ mip : ℤ) : ℚ) := by
    push_cast
    field_simp
  simp only [RectI.isNull, Bool.or_eq_true, decide_eq_true_eq]
  rw [hx1, hx2, hy1, hy2, Int.floor_intCast, Int.ceil_intCast, Int.floor_intCast,
    Int.ceil_intCast]
  have hpow : (0:ℤ) < 2 ^ mip := by positivity
  rcases hroi with h | h
  · left
    exact mul_le_mul_of_nonneg_right h (le_of_lt hpow)
  · right
    exact mul_le_mul_of_nonneg_right h (le_of_lt hpow)

theorem cacheLookupLoop_entries_none (d : NodeData)
    (hmiss : ∀ c, d.cacheLookup c = none) :
    ∀ (comps : List ImageComponents) (planes : List (ImageComponents × Option CachedPlane))
      (attempt byPass : Bool),
      (∀ p ∈ planes, p.2 = (none : Option CachedPlane)) →
      ∀ p ∈ (cacheLookupLoop d comps planes attempt byPass).1, p.2 = none := by
  intro comps
  induction comps with
  | nil =>
      intro planes attempt byPass hp p hmem
      exact hp p hmem
  | cons c rest ih =>
      intro planes attempt byPass hp p hmem
      unfold cacheLookupLoop at hmem
      rw [hmiss c] at hmem
      cases byPass <;>
      · simp only [Bool.false_eq_true, Bool.true_eq_false, if_false, if_true,
          reduceIte] at hmem
        split at hmem
        · refine ih _ _ _ ?_ p hmem
          intro q hq
          rcases List.mem_append.1 hq with hq2 | hq2
          · rw [List.mem_map] at hq2
            obtain ⟨a, _, ha⟩ := hq2
            rw [← ha]
          · simp only [List.mem_singleton] at hq2
            rw [hq2]
        · refine ih _ _ _ ?_ p hmem
          intro q hq
          rcases List.mem_append.1 hq with hq2 | hq2
          · exact hp q hq2
          · simp only [List.mem_singleton] at hq2
            rw [hq2]

theorem headD_snd_none (l : List (ImageComponents × Option CachedPlane))
    (h : ∀ p ∈ l, p.2 = (none : Option CachedPlane)) :
    (l.headD (dummyComps, none)).2 = none := by
  cases l with
  | nil => rfl
  | cons a t => exact h a (List.mem_cons_self _ _)

/-- Counterexample to claim C8 as stated.  The node does not support tiles,
nothing is cached, the RoD is fine and the node produces the requested
plane itself; the requested pixel rectangle is empty (isNull).  The claim
predicts the call returns ok; the code reaches line 2480
(`!isPlaneCached && args.roi.isNull()`) and returns
`eRenderRoIRetCodeFailed`. -/
theorem renderRoI_emptyRoI_counterexample :
    (RectI.isNull ⟨0, 0, 0, 0⟩ = true) ∧
    renderRoI 1 ⟨true, false, false⟩
      (NodeTree.mk
        ⟨1, 1, true, false, true, false, false, true,
         fun _ _ => some ⟨0, 0, 50, 50⟩,
         fun _ _ => IdentityAns.notIdent,
         ⟨0, true, 4⟩, BitDepth.float,
         fun _ => true, fun _ => none, fun _ => none, fun r => [r], false,
         fun _ => RenderRoIRetCode.ok, false, false⟩
        [] [(⟨0, true, 4⟩, PlaneSrc.self)])
      ⟨0, 0, 0, ⟨0, 0, 0, 0⟩, [⟨0, true, 4⟩], BitDepth.float, false,
       RectD.zero, 3⟩ = ⟨RenderRoIRetCode.failed, [], []⟩ := by
  exact ⟨by decide, by decide⟩

/-- Claim C8 amended: for a `renderRoI` call whose requested planes are all
produced by the node itself and whose requested pixel rectangle is empty,
(1) when the node supports tiles the empty rectangle fails to intersect the
image bounds and the call returns ok with no planes and no events (lines
2298-2311); (2) when the node does not support tiles and the planes are not
in the cache, the call returns failed (line 2480-2483), again with no
planes. -/
theorem renderRoI_emptyRoI_amended (fuel : Nat) (frame : FrameArgs)
    (node : NodeTree) (args : RenderRoIArgs) (rod : RectD)
    (req : List ImageComponents)
    (hc : args.components ≠ [])
    (hrod : renderRoIRoD node args = some rod)
    (hident : node.data.identityAns args.time rod = IdentityAns.notIdent)
    (hpart : partitionPlanesGo node.avail node.data.supportedComponent
      args.components [] [] = (req, []))
    (hreq : req ≠ [])
    (hroi : args.roi.isNull = true)
    (hpar : 0 < node.data.par) :
    (node.data.supportsTiles = true →
      renderRoI (fuel + 1) frame node args = ⟨RenderRoIRetCode.ok, [], []⟩) ∧
    (node.data.supportsTiles = false →
      (∀ c, node.data.cacheLookup c = none) →
      renderRoI (fuel + 1) frame node args = ⟨RenderRoIRetCode.failed, [], []⟩) := by
  constructor
  · intro htiles
    simp only [renderRoI]
    rw [if_neg hc, hrod]
    dsimp only
    rw [hident]
    dsimp only
    rw [hpart]
    dsimp only
    simp only [List.map_nil, foldFetchResults]
    rw [if_neg hreq, htiles]
    simp only [eq_self_iff_true, if_true]
    split
    · rfl
    · rename_i roi1 heq
      split at heq
      · rw [intersect_null_left _ _
          (emptyRoI_pixel_null args.roi args.mipMapLevel node.data.par rod hroi hpar)] at heq
        cases heq
      · rw [intersect_null_left _ _ hroi] at heq
        cases heq
  · intro htiles hmiss
    simp only [renderRoI]
    rw [if_neg hc, hrod]
    dsimp only
    rw [hident]
    dsimp only
    rw [hpart]
    dsimp only
    simp only [List.map_nil, foldFetchResults]
    rw [if_neg hreq, htiles]
    simp only [Bool.false_eq_true, if_false]
    have hcached : (((cacheLookupLoop node.data req [] true args.byPassCache).1.headD
        (dummyComps, none)).2 = (none : Option CachedPlane)) := by
      apply headD_snd_none
      exact cacheLookupLoop_entries_none node.data hmiss req [] true args.byPassCache
        (by intro p hp; simp at hp)
    rw [if_pos ⟨hcached, hroi⟩]

end Natron

namespace Natron

/-- Fixture for the amended claim C8, tiles supported (hash 1). -/
def emptyRoiTilesNode : NodeTree :=
  NodeTree.mk
    ⟨1, 1, true, false, true, true, false, true,
     fun _ _ => some ⟨0, 0, 50, 50⟩,
     fun _ _ => IdentityAns.notIdent,
     ⟨0, true, 4⟩, BitDepth.float,
     fun _ => true, fun _ => none, fun _ => none, fun r => [r], false,
     fun _ => RenderRoIRetCode.ok, false, false⟩
    [] [(⟨0, true, 4⟩, PlaneSrc.self)]

/-- Fixture for the amended claim C8, tiles unsupported, cache empty. -/
def emptyRoiNoTilesNode : NodeTree :=
  NodeTree.mk
    ⟨1, 1, true, false, true, false, false, true,
     fun _ _ => some ⟨0, 0, 50, 50⟩,
     fun _ _ => IdentityAns.notIdent,
     ⟨0, true, 4⟩, BitDepth.float,
     fun _ => true, fun _ => none, fun _ => none, fun r => [r], false,
     fun _ => RenderRoIRetCode.ok, false, false⟩
    [] [(⟨0, true, 4⟩, PlaneSrc.self)]

/-- The empty-rectangle request of the amended claim C8 witness. -/
def emptyRoiArgs : RenderRoIArgs :=
  ⟨0, 0, 0, ⟨0, 0, 0, 0⟩, [⟨0, true, 4⟩], BitDepth.float, false, RectD.zero, 3⟩

/-- Witness for the amended claim C8: with an empty requested rectangle the
tiles-supported node returns ok with no planes, the no-tiles node with an
empty cache returns failed. -/
theorem renderRoI_emptyRoI_amended_witness :
    renderRoI 1 wFrame emptyRoiTilesNode emptyRoiArgs =
      ⟨RenderRoIRetCode.ok, [], []⟩ ∧
    renderRoI 1 wFrame emptyRoiNoTilesNode emptyRoiArgs =
      ⟨RenderRoIRetCode.failed, [], []⟩ := by
  constructor
  · exact (renderRoI_emptyRoI_amended 0 wFrame emptyRoiTilesNode emptyRoiArgs
      ⟨0, 0, 50, 50⟩ [⟨0, true, 4⟩] (by decide) (by decide) rfl rfl
      (by decide) (by decide) (by decide)).1 rfl
  · exact (renderRoI_emptyRoI_amended 0 wFrame emptyRoiNoTilesNode emptyRoiArgs
      ⟨0, 0, 50, 50⟩ [⟨0, true, 4⟩] (by decide) (by decide) rfl rfl
      (by decide) (by decide) (by decide)).2 rfl (fun _ => rfl)

end Natron
